import Mathlib

/-!
# Verification of the chem-tetris core (pattern parser, subgraph matcher,
# target selector, game engine)

Shallow embedding of the TypeScript sources `src/app/game/smiles.ts`,
`src/app/game/molecules.ts` and the `GameEngine` class, together with
proofs of the specification's testable properties.

Modelling conventions:
* JS numbers are modelled as `Int`/`Nat` for indices and coordinates and as
  exact rationals (`ℚ`) for tick durations and random rolls; decimal
  literals such as `0.9` are taken at their exact decimal value.
* `Math.random()` draws are threaded in as explicit oracle parameters
  (a rational roll in `[0,1)`, or a natural-number index draw), so every
  theorem quantifies over all possible random outcomes.
* JS `Map`/`Set` objects are modelled as association lists / duplicate-free
  lists with insertion-order semantics (`add` appends when absent,
  `delete` removes).
* A JS value that may be `undefined` is modelled as an `Option`.
-/

set_option maxHeartbeats 1600000

namespace ChemTetris

/-- A board cell: `'.'` empty, `'C'` carbon, `'O'` oxygen, `'G'` garbage. -/
abbrev Cell := Char

/-- An integer board coordinate, as in `types.ts`. -/
structure Coord where
  x : Int
  y : Int
deriving DecidableEq, Repr

/-- A node of a pattern graph (`SmilesNode` in `smiles.ts`). -/
structure SmilesNode where
  element : Char
deriving DecidableEq, Repr

/-- A pattern graph: nodes in encounter order plus per-node neighbour lists
(`SmilesGraph` in `smiles.ts`). -/
structure SmilesGraph where
  nodes : List SmilesNode
  adjacency : List (List Nat)
deriving DecidableEq, Repr

/-- A match candidate with its derived comparison fields
(`MatchCandidate` in `types.ts`). -/
structure MatchCandidate where
  coords : List Coord
  maxY : Int
  minX : Int
  signature : String
deriving DecidableEq, Repr

/-! ## The SMILES-subset parser (`parseSmilesGraph`) -/

/-- Adjacency-map lookup: `adjacencyMap.get(k)`. -/
def amGet (m : List (Nat × List Nat)) (k : Nat) : Option (List Nat) :=
  (m.find? (fun p => p.1 == k)).map (fun p => p.2)

/-- `if (!adjacencyMap.has(k)) adjacencyMap.set(k, new Set())`. -/
def amEnsure (m : List (Nat × List Nat)) (k : Nat) : List (Nat × List Nat) :=
  if (m.find? (fun p => p.1 == k)).isSome then m else m ++ [(k, [])]

/-- `adjacencyMap.get(a)!.add(b)`: append `b` to the set at key `a`
(JS `Set.add` is a no-op on a present element). -/
def amAdd (m : List (Nat × List Nat)) (k v : Nat) : List (Nat × List Nat) :=
  m.map (fun p => if p.1 == k then (p.1, if p.2.contains v then p.2 else p.2 ++ [v]) else p)

/-- The `addEdge` closure of `parseSmilesGraph`. -/
def addEdge (m : List (Nat × List Nat)) (a b : Nat) : List (Nat × List Nat) :=
  amAdd (amAdd (amEnsure (amEnsure m a) b) a b) b a

/-- The mutable state of the parser loop. -/
structure ParseState where
  nodes : List SmilesNode
  adjMap : List (Nat × List Nat)
  branchStack : List Nat
  lastIndex : Option Nat
deriving Repr

/-- One character step of the `for (const ch of pattern)` loop. -/
def parseStep (s : ParseState) (ch : Char) : ParseState :=
  if ch == 'C' || ch == 'O' then
    let idx := s.nodes.length
    let m0 := amEnsure s.adjMap idx
    let m1 := match s.lastIndex with
      | some li => addEdge m0 li idx
      | none => m0
    { nodes := s.nodes ++ [⟨ch⟩], adjMap := m1
      branchStack := s.branchStack, lastIndex := some idx }
  else if ch == '(' then
    match s.lastIndex with
    | some li => { s with branchStack := li :: s.branchStack }
    | none => s
  else if ch == ')' then
    match s.branchStack with
    | li :: rest => { s with branchStack := rest, lastIndex := some li }
    | [] => s
  else s

/-- `parseSmilesGraph` from `smiles.ts`. -/
def parseSmilesGraph (pattern : String) : SmilesGraph :=
  let s := pattern.toList.foldl parseStep ⟨[], [], [], none⟩
  { nodes := s.nodes
    adjacency := (List.range s.nodes.length).map (fun idx => (amGet s.adjMap idx).getD []) }

/-- Is `j` listed among the neighbours of `i`? -/
def adjacentIn (g : SmilesGraph) (i j : Nat) : Bool :=
  (g.adjacency.getD i []).contains j

/-- The characters the parser reacts to; all others are no-ops. -/
def isMeaningfulChar (c : Char) : Bool :=
  c == 'C' || c == 'O' || c == '(' || c == ')'

/-! ## The subgraph matcher (`findBestMatchForGraph`) -/

/-- The four board directions, in source order. -/
def directions : List Coord := [⟨1, 0⟩, ⟨-1, 0⟩, ⟨0, 1⟩, ⟨0, -1⟩]

/-- `board[y]?.[x]`: `none` models the JS `undefined`. -/
def cellAt (board : List (List Cell)) (x y : Int) : Option Cell :=
  (if 0 ≤ y then board[y.toNat]? else none).bind
    (fun row => if 0 ≤ x then row[x.toNat]? else none)

/-- The comparator `(a, b) => a.y - b.y || a.x - b.x` as a boolean `≤`. -/
def coordLe (a b : Coord) : Bool :=
  a.y < b.y || (a.y == b.y && a.x ≤ b.x)

/-- Ordered insertion for the coordinate sort. -/
def insertCoord (c : Coord) : List Coord → List Coord
  | [] => [c]
  | d :: rest => if coordLe c d then c :: d :: rest else d :: insertCoord c rest

/-- `coords.sort((a, b) => a.y - b.y || a.x - b.x)` — an insertion sort by
the same total preorder; coordinates comparing equal are identical, so any
comparison sort produces this list. -/
def sortCoords : List Coord → List Coord
  | [] => []
  | c :: rest => insertCoord c (sortCoords rest)

/-- The canonical signature string: coords sorted by `(y, x)`, rendered
`"y:x"` and joined with `"|"`. -/
def sigOf (coords : List Coord) : String :=
  String.intercalate "|"
    ((sortCoords coords).map (fun c => toString c.y ++ ":" ++ toString c.x))

/-- `createCandidate` from `smiles.ts`.  The JS reduces start from
`-Infinity` / `Infinity`; every call site passes a non-empty list, on which
folding from the head yields the same maximum / minimum. -/
def createCandidate (coords : List Coord) : MatchCandidate :=
  { coords := coords
    maxY := (coords.map (fun c => c.y)).foldl max (((coords.map (fun c => c.y)).head?).getD 0)
    minX := (coords.map (fun c => c.x)).foldl min (((coords.map (fun c => c.x)).head?).getD 0)
    signature := sigOf coords }

/-- `pickBetter` from `smiles.ts`: larger `maxY` wins, then smaller `minX`,
then lexicographically smaller signature (keeping the first argument on a
complete tie). -/
def pickBetter : Option MatchCandidate → Option MatchCandidate → Option MatchCandidate
  | none, b => b
  | some a, none => some a
  | some a, some b =>
    if b.maxY > a.maxY then some b
    else if b.maxY < a.maxY then some a
    else if b.minX < a.minX then some b
    else if b.minX > a.minX then some a
    else if b.signature < a.signature then some b
    else some a

/-- `graph.nodes[i]?.element` (undefined modelled as `none`). -/
def nodeElem (g : SmilesGraph) (i : Nat) : Option Char :=
  (g.nodes[i]?).map (fun n => n.element)

/-- `assignments.get(k)` on the assignment map, modelled as an
association list. -/
def aGet (assignments : List (Nat × Coord)) (k : Nat) : Option Coord :=
  (assignments.find? (fun p => p.1 == k)).map (fun p => p.2)

/-- `assignments.set(k, v)`: replace if present, else append (JS `Map`
insertion-order semantics). -/
def aSet (assignments : List (Nat × Coord)) (k : Nat) (v : Coord) : List (Nat × Coord) :=
  if (assignments.find? (fun p => p.1 == k)).isSome then
    assignments.map (fun p => if p.1 == k then (k, v) else p)
  else assignments ++ [(k, v)]

/-- `Set.add` on a duplicate-free list of naturals: append when absent. -/
def listAddNat (l : List Nat) (n : Nat) : List Nat :=
  if l.contains n then l else l ++ [n]

/-- The inner loop of `getCandidatesForNode` collecting the 4-directional
neighbours of `pos` whose board cell equals the node's element. -/
def localCands (board : List (List Cell)) (w h : Nat) (elem : Option Char)
    (pos : Coord) : List Coord :=
  directions.filterMap (fun dir =>
    let nx := pos.x + dir.x
    let ny := pos.y + dir.y
    if nx < 0 || nx ≥ (w : Int) || ny < 0 || ny ≥ (h : Int) then none
    else if cellAt board nx ny == elem then some ⟨nx, ny⟩ else none)

/-- The dedup step of `getCandidatesForNode`: keep the first occurrence of
each coordinate (JS `filter((cand, idx, arr) => findIndex(...) === idx)`). -/
def dedupCoords : List Coord → List Coord
  | [] => []
  | c :: rest => c :: (dedupCoords rest).filter (fun d => d ≠ c)

/-- The neighbour-intersection loop of `getCandidatesForNode`:
`candidates` is `none` until the first assigned neighbour contributes. -/
def interCands (g : SmilesGraph) (board : List (List Cell)) (w h : Nat)
    (assignments : List (Nat × Coord)) (nodeIndex : Nat) :
    List Nat → Option (List Coord) → List Coord
  | [], cands => dedupCoords (cands.getD [])
  | nb :: rest, cands =>
    match aGet assignments nb with
    | none => interCands g board w h assignments nodeIndex rest cands
    | some pos =>
      let here := localCands board w h (nodeElem g nodeIndex) pos
      if here.isEmpty then []
      else
        match cands with
        | none => interCands g board w h assignments nodeIndex rest (some here)
        | some cs =>
          let cs' := cs.filter (fun cand => here.any (fun loc => loc.x == cand.x && loc.y == cand.y))
          if cs'.isEmpty then []
          else interCands g board w h assignments nodeIndex rest (some cs')

/-- `getCandidatesForNode` from `smiles.ts`. -/
def getCandidatesForNode (g : SmilesGraph) (board : List (List Cell)) (w h : Nat)
    (assignments : List (Nat × Coord)) (nodeIndex : Nat) (neighborIndices : List Nat) :
    List Coord :=
  interCands g board w h assignments nodeIndex neighborIndices none

/-- The number of already-assigned pattern neighbours of `node`. -/
def countAssigned (adjacency : List (List Nat)) (assignments : List (Nat × Coord))
    (node : Nat) : Nat :=
  ((adjacency.getD node []).filter (fun n => (aGet assignments n).isSome)).length

/-- The most-constrained-variable selection loop of `search`: the first
unassigned node (in `unassigned` iteration order) with the strictly largest
positive number of assigned neighbours. -/
def selectNext (adjacency : List (List Nat)) (assignments : List (Nat × Coord))
    (unassigned : List Nat) : Option Nat :=
  (unassigned.foldl (fun acc node =>
    let c := countAssigned adjacency assignments node
    if c == 0 then acc
    else
      match acc with
      | none => some (node, c)
      | some best => if c > best.2 then some (node, c) else acc) none).map (fun p => p.1)

/-- The adjacency check in the candidate loop: Manhattan distance exactly 1
to every already-assigned neighbour. -/
def validCand (assignments : List (Nat × Coord)) (assignedNeighbors : List Nat)
    (cand : Coord) : Bool :=
  assignedNeighbors.all (fun nb =>
    match aGet assignments nb with
    | none => false
    | some pos => ((pos.x - cand.x).natAbs + (pos.y - cand.y).natAbs) == 1)

/-- The parts of the search state that are threaded through (JS mutates
them in place and never restores them; `unassigned` is restored as a set
but its insertion order evolves, so it is threaded too). -/
structure SearchAcc where
  unassigned : List Nat
  seen : List String
  best : Option MatchCandidate

/-- The recursive `search` closure of `findBestMatchForGraph`; the
`for (const cand of candidates)` loop is a left fold over the candidate
list.  `fuel` bounds the recursion depth; the top-level call supplies
`graph.nodes.length`, which is always sufficient because every level
assigns one more node.  `assignments` and `used` are backtracked in the
source (each level removes exactly what it added, and the node being
assigned is never already present), so they are passed down by value;
`acc` (`unassigned`/`seen`/`best`) is mutated through the whole search and
is threaded in and out. -/
def searchRec (g : SmilesGraph) (board : List (List Cell)) (w h : Nat) :
    Nat → List (Nat × Coord) → List Coord → SearchAcc → SearchAcc
  | 0, _, _, acc => acc
  | fuel + 1, assignments, used, acc =>
    if assignments.length == g.nodes.length then
      -- completion: materialise the coordinate list (the JS `get(idx)!`
      -- always succeeds here; `getD` supplies the unreachable default)
      let coords := (List.range g.nodes.length).map (fun idx => (aGet assignments idx).getD ⟨0, 0⟩)
      let candidate := createCandidate coords
      if acc.seen.contains candidate.signature then acc
      else { acc with seen := acc.seen ++ [candidate.signature]
                      best := pickBetter acc.best (some candidate) }
    else
      match selectNext g.adjacency assignments acc.unassigned with
      | none => acc
      | some nextNode =>
        let assignedNeighbors :=
          (g.adjacency.getD nextNode []).filter (fun n => (aGet assignments n).isSome)
        let candidates := getCandidatesForNode g board w h assignments nextNode assignedNeighbors
        candidates.foldl (fun acc' cand =>
          if used.contains cand then acc'
          else if validCand assignments assignedNeighbors cand then
            let acc1 := { acc' with unassigned := acc'.unassigned.erase nextNode }
            let acc2 := searchRec g board w h fuel (aSet assignments nextNode cand)
              (used ++ [cand]) acc1
            { acc2 with unassigned := listAddNat acc2.unassigned nextNode }
          else acc') acc

/-- The root-selection loop: the pattern node with the greatest number of
neighbours, first index on ties. -/
def rootIndexOf (g : SmilesGraph) (total : Nat) : Nat :=
  (List.range total).foldl (fun root i =>
    if (g.adjacency.getD i []).length > (g.adjacency.getD root []).length then i else root) 0

/-- `findBestMatchForGraph` from `smiles.ts`. -/
def findBestMatchForGraph (g : SmilesGraph) (board : List (List Cell))
    (w h : Nat) : Option MatchCandidate :=
  if g.nodes.length == 0 then none
  else
    let total := g.nodes.length
    let root := rootIndexOf g total
    let cells := (List.range h).flatMap
      (fun (y : Nat) => (List.range w).map (fun (x : Nat) => ((x : Int), (y : Int))))
    let init : SearchAcc := ⟨List.range total, [], none⟩
    let final := cells.foldl (fun acc p =>
      if cellAt board p.1 p.2 == nodeElem g root then
        let acc1 := { acc with unassigned := acc.unassigned.erase root }
        let acc2 := searchRec g board w h total [(root, ⟨p.1, p.2⟩)] [⟨p.1, p.2⟩] acc1
        { acc2 with unassigned := listAddNat acc2.unassigned root }
      else acc) init
    final.best

/-! ## The target selector (`molecules.ts`) -/

/-- A molecule target: `{ name, pattern }`. -/
structure Molecule where
  name : String
  pattern : String
deriving DecidableEq, Repr

def TIER_ONE_MOLS : List Molecule :=
  [⟨"ethane", "CC"⟩, ⟨"propane", "CCC"⟩, ⟨"butane", "CCCC"⟩, ⟨"pentane", "CCCCC"⟩,
   ⟨"hexane", "CCCCCC"⟩, ⟨"ethanol", "CCO"⟩, ⟨"dimethyl ether", "COC"⟩,
   ⟨"diethyl ether", "CCOCC"⟩]

def TIER_TWO_MOLS : List Molecule :=
  [⟨"2-methylpropane", "CC(C)C"⟩, ⟨"2-methylbutane", "CC(C)CC"⟩, ⟨"propan-1-ol", "CCCO"⟩,
   ⟨"2-propanol", "CC(O)C"⟩, ⟨"butan-2-ol", "CC(O)CC"⟩, ⟨"2-methylpropan-1-ol", "CC(C)CO"⟩,
   ⟨"methoxyethane", "COCC"⟩, ⟨"methoxyethanol", "COCCO"⟩, ⟨"propoxyethane", "CCCOCC"⟩]

def TIER_THREE_MOLS : List Molecule :=
  [⟨"3-methylpentane", "CCC(C)CC"⟩, ⟨"2-methylpentane", "CC(C)CCC"⟩,
   ⟨"2,2-dimethylbutane", "CC(C)(C)CC"⟩, ⟨"2,3-dimethylbutane", "CC(C)C(C)C"⟩,
   ⟨"3-ethylpentane", "CCC(CC)CC"⟩, ⟨"2-methoxy-2-methylpropane", "COC(C)(C)C"⟩,
   ⟨"1-methoxy-2-methylpropane", "COCC(C)C"⟩, ⟨"2-ethoxy-2-methylpropane", "CCOC(C)(C)C"⟩,
   ⟨"2-methoxypropan-1-ol", "COC(C)O"⟩, ⟨"2-(methoxymethyl)propan-1-ol", "COC(C)CO"⟩,
   ⟨"2-methoxy-2-methylpropan-1-ol", "COC(C)(C)CO"⟩, ⟨"2-ethoxyethan-1-ol", "CCOCCO"⟩,
   ⟨"3-methoxy-2-methylbutan-1-ol", "COC(C)CCO"⟩, ⟨"2-methoxy-3-methylbutane", "COC(C)CC"⟩,
   ⟨"2-(ethoxymethyl)propan-1-ol", "CCOC(C)CO"⟩, ⟨"2-ethoxy-3-methylbutane", "CCOC(C)CC"⟩,
   ⟨"2-ethoxy-2-methylpropan-1-ol", "CCOC(C)(C)CO"⟩]

def FALLBACK_MOLECULE : Molecule := ⟨"ethane", "CC"⟩

/-- The bounded-retry `while` loop of `chooseRandom`.  `d` is the stream of
`Math.floor(Math.random() * pool.length)` draws (`d k` is the `k`-th draw;
JS always yields a value `< pool.length`, and the code already treats an
out-of-range index as `null`). -/
def chooseLoop (pool : List Molecule) (prevName : Option String) (d : Nat → Nat) :
    Nat → Nat → Molecule → Option Molecule
  | 0, _, candidate => some candidate
    -- fuel-exhaustion is unreachable: the caller supplies
    -- `fuel = pool.length + 1 - attempts`, and the loop guard
    -- `attempts < pool.length` keeps the fuel positive
  | fuel + 1, attempts, candidate =>
    if prevName == some candidate.name ∧ attempts < pool.length then
      match pool[d (attempts + 1)]? with
      | none => none
      | some c => chooseLoop pool prevName d fuel (attempts + 1) c
    else some candidate

/-- `chooseRandom` from `molecules.ts`. -/
def chooseRandom (pool : List Molecule) (prevName : Option String) (d : Nat → Nat) :
    Option Molecule :=
  if pool.length == 0 then none
  else if pool.length == 1 then pool[0]?
  else
    match pool[d 0]? with
    | none => none
    | some c => chooseLoop pool prevName d (pool.length + 1) 0 c

/-- The JS `a ?? b` on optional molecules. -/
def orElseM (a b : Option Molecule) : Option Molecule :=
  match a with
  | some x => some x
  | none => b

/-- The built-in-tier part of `selectTarget` (reached when no non-empty
custom pool is configured). -/
def selectTargetTiers (clearCount : Nat) (prevName : Option String)
    (ds : Nat → Nat → Nat) (roll : ℚ) : Molecule :=
  if clearCount < 2 then
    (orElseM (orElseM (chooseRandom TIER_ONE_MOLS prevName (ds 0))
        (chooseRandom TIER_TWO_MOLS prevName (ds 1)))
      (chooseRandom TIER_THREE_MOLS prevName (ds 2))).getD FALLBACK_MOLECULE
  else if clearCount < 6 then
    let tierTwoChance : ℚ := min (85/100) (35/100 + ((clearCount : ℚ) - 2) * (15/100))
    let useTierTwo := roll < tierTwoChance
    let candidate := chooseRandom (if useTierTwo then TIER_TWO_MOLS else TIER_ONE_MOLS)
      prevName (ds 0)
    let candidate := orElseM candidate
      (chooseRandom (if useTierTwo then TIER_ONE_MOLS else TIER_TWO_MOLS) prevName (ds 1))
    let candidate := orElseM candidate (chooseRandom TIER_THREE_MOLS prevName (ds 2))
    candidate.getD FALLBACK_MOLECULE
  else
    let tierThreeChance : ℚ := min (9/10) (4/10 + ((clearCount : ℚ) - 6) * (1/10))
    let tierTwoChance : ℚ := min (7/10) (3/10 + ((clearCount : ℚ) - 6) * (8/100))
    let primaryPool :=
      if roll < tierThreeChance then TIER_THREE_MOLS
      else if roll < tierThreeChance + tierTwoChance then TIER_TWO_MOLS
      else TIER_ONE_MOLS
    let candidate := chooseRandom primaryPool prevName (ds 0)
    let candidate := orElseM candidate
      (orElseM (orElseM (chooseRandom TIER_THREE_MOLS prevName (ds 1))
          (chooseRandom TIER_TWO_MOLS prevName (ds 2)))
        (chooseRandom TIER_ONE_MOLS prevName (ds 3)))
    candidate.getD FALLBACK_MOLECULE

/-- `selectTarget` from `molecules.ts`.  `ds i` is the draw stream consumed
by the `i`-th `chooseRandom` call site of the taken branch, and `roll` is
the tier-chance `Math.random()` draw. -/
def selectTarget (clearCount : Nat) (prevName : Option String)
    (customMolecules : Option (List Molecule)) (ds : Nat → Nat → Nat) (roll : ℚ) : Molecule :=
  match customMolecules with
  | some custom =>
    if custom.length > 0 then
      (orElseM (chooseRandom custom prevName (ds 0)) custom[0]?).getD FALLBACK_MOLECULE
    else selectTargetTiers clearCount prevName ds roll
  | none => selectTargetTiers clearCount prevName ds roll

/-! ## The game engine (`GameEngine` class) -/

/-- The active falling atom (`Active` in `types.ts`). -/
structure Active where
  x : Int
  y : Int
  atom : Char
deriving DecidableEq, Repr

/-- The result record returned by `tick()`. -/
structure TickResult where
  matched : Option MatchCandidate
  gameOver : Bool
  targetChanged : Bool
deriving DecidableEq, Repr

/-- The state of a `GameEngine` instance. -/
structure GameEngine where
  width : Nat
  height : Nat
  board : List (List Cell)
  active : Option Active
  score : Nat
  target : Molecule
  running : Bool
  softDrop : Bool
  tickMs : ℚ
  currentTickMs : ℚ
  pendingGarbage : Nat
  customMolecules : Option (List Molecule)

/-- `emptyBoard()`: a `height × width` grid of `'.'`. -/
def emptyBoard (width height : Nat) : List (List Cell) :=
  List.replicate height (List.replicate width '.')

/-- The `GameEngine` constructor. -/
def GameEngine.make (width height : Nat) (tickMs : ℚ)
    (customMolecules : Option (List Molecule)) (ds : Nat → Nat → Nat) (roll : ℚ) :
    GameEngine :=
  { width := width, height := height, tickMs := tickMs, currentTickMs := tickMs
    customMolecules := customMolecules
    board := emptyBoard width height
    active := none, score := 0
    target := selectTarget 0 none customMolecules ds roll
    running := false, softDrop := false, pendingGarbage := 0 }

/-- `randAtom()`, with the `Math.random()` draw `r` passed in. -/
def GameEngine.randAtom (e : GameEngine) (r : ℚ) : Char :=
  let oxygenProb : ℚ := if e.score ≥ 4 then 1/4 else 3/20
  if r < oxygenProb then 'O' else 'C'

/-- `canMove(dx, dy)` evaluated at an explicit position. -/
def GameEngine.canMoveAt (e : GameEngine) (x y dx dy : Int) : Bool :=
  let nx := x + dx
  let ny := y + dy
  if nx < 0 || nx ≥ (e.width : Int) || ny < 0 || ny ≥ (e.height : Int) then false
  else cellAt e.board nx ny == some '.'

/-- `canMove(dx, dy)` from the engine. -/
def GameEngine.canMove (e : GameEngine) (dx dy : Int) : Bool :=
  match e.active with
  | none => false
  | some a => e.canMoveAt a.x a.y dx dy

/-- `if (this.board[y]) this.board[y]![x] = v` (in-bounds write; the active
piece and all matched coordinates are always in bounds). -/
def setCell (board : List (List Cell)) (x y : Int) (v : Cell) : List (List Cell) :=
  if 0 ≤ y ∧ 0 ≤ x then
    match board[y.toNat]? with
    | some row => board.set y.toNat (row.set x.toNat v)
    | none => board
  else board

/-- The non-empty cells of column `x`, top to bottom (`stack` in
`applyGravity`; JS skips `undefined` and `'.'`). -/
def columnStack (board : List (List Cell)) (x : Nat) : List Cell :=
  (board.filterMap (fun row => row[x]?)).filter (fun c => c ≠ '.')

/-- The bottom-anchored refill of one column in `applyGravity`: cells are
written from the bottom up, the rest is filled with `'.'`. -/
def packColumn (height : Nat) (stack : List Cell) : List Cell :=
  if height ≤ stack.length then stack.drop (stack.length - height)
  else List.replicate (height - stack.length) '.' ++ stack

/-- `applyGravity()`: compact every column downward independently. -/
def applyGravity (width height : Nat) (board : List (List Cell)) : List (List Cell) :=
  (List.range height).map (fun y => (List.range width).map (fun x =>
    ((packColumn height (columnStack board x))[y]?).getD '.'))

/-- `spawn()`, with the `randAtom` draw passed in. -/
def GameEngine.spawn (e : GameEngine) (r : ℚ) : GameEngine × Bool :=
  let x : Int := (e.width / 2 : Nat)
  if cellAt e.board x 0 != some '.' then (e, false)
  else ({ e with active := some ⟨x, 0, e.randAtom r⟩ }, true)

/-- `findBestTargetMatch()`. -/
def GameEngine.findBestTargetMatch (e : GameEngine) : Option MatchCandidate :=
  findBestMatchForGraph (parseSmilesGraph e.target.pattern) e.board e.width e.height

/-- `lockPiece()`: write the active atom into the board and run the
matcher. -/
def GameEngine.lockPiece (e : GameEngine) : GameEngine × Option MatchCandidate :=
  match e.active with
  | none => (e, none)
  | some a =>
    let e' := { e with board := setCell e.board a.x a.y a.atom, active := none }
    (e', e'.findBestTargetMatch)

/-- The `while (this.canMove(0, 1)) this.active.y++` loop of `hardDrop`. -/
def GameEngine.dropY (e : GameEngine) (x y : Int) : Int :=
  if h : e.canMoveAt x y 0 1 = true then e.dropY x (y + 1) else y
termination_by (e.height - y).toNat
decreasing_by
  unfold GameEngine.canMoveAt at h
  simp only at h
  split at h
  · exact absurd h (by simp)
  · rename_i hcond
    simp only [Bool.or_eq_true, decide_eq_true_eq, not_or, not_lt, not_le] at hcond
    omega

/-- `hardDrop()`. -/
def GameEngine.hardDrop (e : GameEngine) : GameEngine × Option MatchCandidate :=
  match e.active with
  | none => (e, none)
  | some a =>
    ({ e with active := some { a with y := e.dropY a.x a.y } } : GameEngine).lockPiece

/-- `moveHorizontal(dx)`. -/
def GameEngine.moveHorizontal (e : GameEngine) (dx : Int) : GameEngine × Bool :=
  match e.active with
  | none => (e, false)
  | some a =>
    if ¬ e.running then (e, false)
    else if e.canMoveAt a.x a.y dx 0 then
      ({ e with active := some { a with x := a.x + dx } }, true)
    else (e, false)

/-- The coordinate-blanking loop of `clearMatch`. -/
def clearCells (board : List (List Cell)) (coords : List Coord) : List (List Cell) :=
  coords.foldl (fun b c => setCell b c.x c.y '.') board

/-- `clearMatch(match)`: blank every matched coordinate, then apply
gravity. -/
def GameEngine.clearMatch (e : GameEngine) (m : MatchCandidate) : GameEngine :=
  { e with board := applyGravity e.width e.height (clearCells e.board m.coords) }

/-- `boostSpeed(clearedCount)`. -/
def GameEngine.boostSpeed (e : GameEngine) (clearedCount : Int) : GameEngine × Bool :=
  if clearedCount ≤ 0 then (e, false)
  else
    let factor : ℚ := (9/10 : ℚ) ^ clearedCount.toNat
    let nextDuration : ℚ := max 80 (e.currentTickMs * factor)
    if nextDuration = e.currentTickMs then (e, false)
    else ({ e with currentTickMs := nextDuration }, true)

/-- `pickNewTarget()`, with the selector's oracle draws passed in. -/
def GameEngine.pickNewTarget (e : GameEngine) (ds : Nat → Nat → Nat) (roll : ℚ) :
    GameEngine × Option MatchCandidate :=
  let next := selectTarget e.score (some e.target.name) e.customMolecules ds roll
  let e1 := { e with target := next }
  match e1.findBestTargetMatch with
  | none => (e1, none)
  | some m =>
    let e2 := { e1 with score := e1.score + 1 }
    ((e2.boostSpeed 1).1, some m)

/-- `addGarbageRows(count)`: `gaps y` is the random gap column drawn for
bottom row `y` (JS always draws a value `< width`). -/
def GameEngine.addGarbageRows (e : GameEngine) (count : Nat) (gaps : Nat → Nat) :
    GameEngine × Bool :=
  let capped := min count 6
  if (List.range capped).any (fun y => ((e.board[y]?).getD []).any (fun c => c ≠ '.')) then
    (e, false)
  else
    let newBoard := (List.range e.height).map (fun y =>
      if y < e.height - capped then (e.board[y + capped]?).getD []
      else (List.range e.width).map (fun x => if x = gaps y then '.' else 'G'))
    let active' := e.active.map (fun a =>
      { a with y := if a.y - (capped : Int) < 0 then 0 else a.y - (capped : Int) })
    ({ e with board := newBoard, active := active' }, true)

/-- One iteration budget of the `for (let i = 0; i < steps; i++)` loop in
`tick()`; early returns surface the match / game-over result. -/
def tickIter (r : ℚ) : Nat → GameEngine → GameEngine × TickResult
  | 0, e => (e, ⟨none, false, false⟩)
  | i + 1, e =>
    match e.active with
    | none => tickIter r i e
    | some a =>
      if e.canMoveAt a.x a.y 0 1 then
        tickIter r i { e with active := some { a with y := a.y + 1 } }
      else
        let locked := GameEngine.lockPiece { e with active := some a }
        match locked.2 with
        | some mc =>
          let boosted := (({ locked.1 with score := locked.1.score + 1 } :
            GameEngine).boostSpeed 1).1
          (boosted, ⟨some mc, false, false⟩)
        | none =>
          let spawned := locked.1.spawn r
          if spawned.2 then (spawned.1, ⟨none, false, false⟩)
          else ({ spawned.1 with running := false }, ⟨none, true, false⟩)

/-- `tick()`, with the spawn draw passed in. -/
def GameEngine.tick (e : GameEngine) (r : ℚ) : GameEngine × TickResult :=
  if ¬ e.running then (e, ⟨none, false, false⟩)
  else tickIter r (if e.softDrop then 2 else 1) e

/-- One in-game engine operation, with its random draws attached (reset is
excluded: it starts a new game). -/
inductive EngOp where
  | spawn (r : ℚ)
  | tick (r : ℚ)
  | hardDrop
  | moveHorizontal (dx : Int)
  | lockPiece
  | clearMatch (m : MatchCandidate)
  | boostSpeed (n : Int)
  | addGarbageRows (k : Nat) (gaps : Nat → Nat)
  | pickNewTarget (ds : Nat → Nat → Nat) (roll : ℚ)

/-- Apply one operation to the engine state (results are discarded). -/
def applyOp (e : GameEngine) : EngOp → GameEngine
  | .spawn r => (e.spawn r).1
  | .tick r => (e.tick r).1
  | .hardDrop => e.hardDrop.1
  | .moveHorizontal dx => (e.moveHorizontal dx).1
  | .lockPiece => e.lockPiece.1
  | .clearMatch m => e.clearMatch m
  | .boostSpeed n => (e.boostSpeed n).1
  | .addGarbageRows k gaps => (e.addGarbageRows k gaps).1
  | .pickNewTarget ds roll => (e.pickNewTarget ds roll).1

/-- Run a sequence of in-game operations. -/
def runOps (e : GameEngine) (ops : List EngOp) : GameEngine :=
  ops.foldl applyOp e

/-! ## Specification predicates -/

/-- Manhattan distance between two board coordinates. -/
def manhattan (a b : Coord) : Nat :=
  (a.x - b.x).natAbs + (a.y - b.y).natAbs

/-- The adjacency lists describe an undirected relation (as the parser
always produces): every listed edge is listed in both directions. -/
def symAdjB (adj : List (List Nat)) : Bool :=
  (List.range adj.length).all (fun i => (adj.getD i []).all (fun j => (adj.getD j []).contains i))

/-- The adjacency lists contain no self-loop (as the parser always
produces). -/
def noSelfAdjB (adj : List (List Nat)) : Bool :=
  (List.range adj.length).all (fun i => ¬ (adj.getD i []).contains i)

/-- Matcher soundness, claim C1's conclusion: the candidate assigns one
coordinate per pattern node; pattern edges map to Manhattan-distance-1
pairs; each coordinate's board cell carries the node's element and lies in
bounds; coordinates are pairwise distinct. -/
def SoundCandidate (g : SmilesGraph) (board : List (List Cell)) (w h : Nat)
    (c : MatchCandidate) : Prop :=
  c.coords.length = g.nodes.length ∧
  (∀ i j, i < g.nodes.length → j < g.nodes.length → j ∈ g.adjacency.getD i [] →
    manhattan (c.coords.getD i ⟨0, 0⟩) (c.coords.getD j ⟨0, 0⟩) = 1) ∧
  (∀ i, i < g.nodes.length →
    cellAt board (c.coords.getD i ⟨0, 0⟩).x (c.coords.getD i ⟨0, 0⟩).y = nodeElem g i ∧
    0 ≤ (c.coords.getD i ⟨0, 0⟩).x ∧ (c.coords.getD i ⟨0, 0⟩).x < (w : Int) ∧
    0 ≤ (c.coords.getD i ⟨0, 0⟩).y ∧ (c.coords.getD i ⟨0, 0⟩).y < (h : Int)) ∧
  (∀ i j, i < g.nodes.length → j < g.nodes.length → i ≠ j →
    c.coords.getD i ⟨0, 0⟩ ≠ c.coords.getD j ⟨0, 0⟩)

/-- Board cell read with Nat indices and `'.'` default, for stating the
gravity invariant. -/
def cellN (b : List (List Cell)) (y x : Nat) : Cell :=
  (((b[y]?).getD [])[x]?).getD '.'

/-- The speed invariant of claim C5 (for a base tick of at least the 80ms
floor). -/
def SpeedInv (e : GameEngine) : Prop :=
  80 ≤ e.currentTickMs ∧ e.currentTickMs ≤ e.tickMs

/-- Membership in some built-in tier, or the fallback. -/
def InBuiltinPools (m : Molecule) : Prop :=
  m ∈ TIER_ONE_MOLS ∨ m ∈ TIER_TWO_MOLS ∨ m ∈ TIER_THREE_MOLS ∨ m = FALLBACK_MOLECULE

/-- Coordinate `c` is an admissible placement for pattern node `i`: its
board cell carries the node's element, and it lies inside the `w × h`
bounds. -/
def GoodCoord (g : SmilesGraph) (board : List (List Cell)) (w h : Nat)
    (i : Nat) (c : Coord) : Prop :=
  cellAt board c.x c.y = nodeElem g i ∧
  0 ≤ c.x ∧ c.x < (w : Int) ∧ 0 ≤ c.y ∧ c.y < (h : Int)

/-- The invariant of a partial assignment of the backtracking search,
together with its used-coordinate set. -/
structure AssignInv (g : SmilesGraph) (board : List (List Cell)) (w h : Nat)
    (A : List (Nat × Coord)) (used : List Coord) : Prop where
  keysNodup : (A.map Prod.fst).Nodup
  keysLt : ∀ p ∈ A, p.1 < g.nodes.length
  good : ∀ p ∈ A, GoodCoord g board w h p.1 p.2
  distinct : ∀ p ∈ A, ∀ q ∈ A, p.1 ≠ q.1 → p.2 ≠ q.2
  edges : ∀ p ∈ A, ∀ q ∈ A, p.1 ≠ q.1 → q.1 ∈ g.adjacency.getD p.1 [] →
    manhattan p.2 q.2 = 1
  usedMem : ∀ p ∈ A, p.2 ∈ used

/-- The invariant of the threaded `unassigned` list: duplicate-free,
in-range node indices, disjoint from the assignment's keys. -/
def UnassignedInv (g : SmilesGraph) (A : List (Nat × Coord)) (u : List Nat) : Prop :=
  u.Nodup ∧ ∀ n ∈ u, n < g.nodes.length ∧ n ∉ A.map Prod.fst

/-- Every candidate held in `best` is sound. -/
def GoodBest (g : SmilesGraph) (board : List (List Cell)) (w h : Nat)
    (b : Option MatchCandidate) : Prop :=
  ∀ c, b = some c → SoundCandidate g board w h c

/-- The body of the candidate loop of `searchRec`, named so the fold
invariants can be stated about it (definitionally equal to the lambda in
`searchRec`). -/
def candStep (g : SmilesGraph) (board : List (List Cell)) (w h : Nat)
    (fuel : Nat) (assignments : List (Nat × Coord)) (used : List Coord)
    (nextNode : Nat) (nbs : List Nat) : SearchAcc → Coord → SearchAcc :=
  fun acc' cand =>
    if used.contains cand then acc'
    else if validCand assignments nbs cand then
      let acc1 := { acc' with unassigned := acc'.unassigned.erase nextNode }
      let acc2 := searchRec g board w h fuel (aSet assignments nextNode cand)
        (used ++ [cand]) acc1
      { acc2 with unassigned := listAddNat acc2.unassigned nextNode }
    else acc'

/-- The body of the root-placement loop of `findBestMatchForGraph`, named
so the fold invariants can be stated about it (definitionally equal to the
lambda there). -/
def rootStep (g : SmilesGraph) (board : List (List Cell)) (w h : Nat)
    (total root : Nat) : SearchAcc → Int × Int → SearchAcc :=
  fun acc p =>
    if cellAt board p.1 p.2 == nodeElem g root then
      let acc1 := { acc with unassigned := acc.unassigned.erase root }
      let acc2 := searchRec g board w h total [(root, ⟨p.1, p.2⟩)] [⟨p.1, p.2⟩] acc1
      { acc2 with unassigned := listAddNat acc2.unassigned root }
    else acc

/-- A 4×4 board holding two disjoint `CC` occurrences, one in the top row
and one in the bottom row (claim C2's tie-break scenario). -/
def ccBoard : List (List Cell) :=
  [['C', 'C', '.', '.'],
   ['.', '.', '.', '.'],
   ['.', '.', '.', '.'],
   ['.', '.', 'C', 'C']]

/-- A small concrete engine state used to witness the engine claims. -/
def witnessEngine : GameEngine :=
  { width := 2, height := 2
    board := [['C', '.'], ['.', 'C']]
    active := none, score := 0
    target := ⟨"ethane", "CC"⟩
    running := true, softDrop := false
    tickMs := 500, currentTickMs := 500
    pendingGarbage := 0, customMolecules := none }

/-- A freshly constructed engine whose configured base tick (50ms) lies
below the 80ms boost floor — the input refuting claim C5 as stated. -/
def slowEngine : GameEngine :=
  GameEngine.make 4 4 50 (some [⟨"water", "O"⟩]) (fun _ _ => 0) 0

/-- A freshly constructed engine used to witness claim C10. -/
def idleEngine : GameEngine :=
  GameEngine.make 2 2 500 (some [⟨"water", "O"⟩]) (fun _ _ => 0) 0

/-- An 8-row, 1-column engine whose only occupied cell sits in row 6:
rows 0–5 are empty, so `addGarbageRows 7` (capped at 6) succeeds even
though a cell lies within the top 7 rows — the input refuting claim C4 as
stated. -/
def garbageEngine : GameEngine :=
  { width := 1, height := 8
    board := [['.'], ['.'], ['.'], ['.'], ['.'], ['.'], ['C'], ['.']]
    active := none, score := 0
    target := ⟨"ethane", "CC"⟩
    running := true, softDrop := false
    tickMs := 500, currentTickMs := 500
    pendingGarbage := 0, customMolecules := none }

/-! ## Parser lemmas and claims C6, C7 -/

theorem parseStep_other (s : ParseState) (c : Char) (h : isMeaningfulChar c = false) :
    parseStep s c = s := by
  simp only [isMeaningfulChar, Bool.or_eq_false_iff] at h
  obtain ⟨⟨⟨hC, hO⟩, hL⟩, hR⟩ := h
  simp [parseStep, hC, hO, hL, hR]

theorem foldl_parseStep_filter (cs : List Char) :
    ∀ s : ParseState, cs.foldl parseStep s = (cs.filter isMeaningfulChar).foldl parseStep s := by
  induction cs with
  | nil => intro s; rfl
  | cons c rest ih =>
    intro s
    by_cases h : isMeaningfulChar c = true
    · simp only [List.foldl_cons, List.filter_cons, h, if_pos]
      exact ih (parseStep s c)
    · rw [Bool.not_eq_true] at h
      simp only [List.foldl_cons, List.filter_cons, h, Bool.false_eq_true, if_neg,
        not_false_iff, parseStep_other s c h]
      exact ih s

/-- C6.  Branch correctness of the parser: `parseSmilesGraph "CC(O)C"`
yields exactly the 4 nodes `[C, C, O, C]` and the undirected edge set
`{0-1, 1-2, 1-3}`; nodes 2 and 3 are not adjacent. -/
theorem branch_correctness_CCOC :
    parseSmilesGraph "CC(O)C" =
      { nodes := [⟨'C'⟩, ⟨'C'⟩, ⟨'O'⟩, ⟨'C'⟩]
        adjacency := [[1], [0, 2, 3], [1], [1]] } ∧
    (∀ i, i < 4 → ∀ j, j < 4 →
      (adjacentIn (parseSmilesGraph "CC(O)C") i j = true ↔
        (i, j) ∈ [(0, 1), (1, 0), (1, 2), (2, 1), (1, 3), (3, 1)])) ∧
    adjacentIn (parseSmilesGraph "CC(O)C") 2 3 = false ∧
    adjacentIn (parseSmilesGraph "CC(O)C") 3 2 = false := by
  decide

/-- C7.  Parser leniency: every character other than `C`, `O`, `(`, `)` is
a no-op, so parsing any string gives the same graph as parsing its
meaningful-character subsequence. -/
theorem parser_leniency (p : String) :
    parseSmilesGraph p = parseSmilesGraph ⟨p.toList.filter isMeaningfulChar⟩ := by
  unfold parseSmilesGraph
  rw [foldl_parseStep_filter]
  rfl

/-! ## Claim C9: empty patterns never match -/

/-- C9.  If the pattern graph has no nodes, `findBestMatchForGraph`
returns `none` for every board. -/
theorem empty_graph_no_match (g : SmilesGraph) (board : List (List Cell)) (w h : Nat)
    (hg : g.nodes = []) : findBestMatchForGraph g board w h = none := by
  simp [findBestMatchForGraph, hg]

/-- Witness for C9: the graph parsed from a pattern with no atoms, on a
fully occupied board. -/
theorem empty_graph_no_match_witness :
    findBestMatchForGraph (parseSmilesGraph "xy()z") [['C', 'C'], ['C', 'C']] 2 2 = none :=
  empty_graph_no_match _ _ _ _ (by decide)

/-! ## Claim C2: the best-match total order -/

/-- C2.  `pickBetter` prefers the larger `maxY`, then the smaller `minX`,
then the lexicographically smaller signature, and returns the non-null
argument when one side is null; consequently, on a board with two disjoint
`CC` occurrences — one ending in the bottom row, one higher up —
`findBestMatchForGraph` returns the bottom occurrence (larger `maxY`). -/
theorem best_match_total_order :
    (∀ b : MatchCandidate, pickBetter none (some b) = some b) ∧
    (∀ a : MatchCandidate, pickBetter (some a) none = some a) ∧
    (∀ a b : MatchCandidate,
      (a.maxY < b.maxY → pickBetter (some a) (some b) = some b) ∧
      (b.maxY < a.maxY → pickBetter (some a) (some b) = some a) ∧
      (a.maxY = b.maxY → b.minX < a.minX → pickBetter (some a) (some b) = some b) ∧
      (a.maxY = b.maxY → a.minX < b.minX → pickBetter (some a) (some b) = some a) ∧
      (a.maxY = b.maxY → a.minX = b.minX → b.signature < a.signature →
        pickBetter (some a) (some b) = some b) ∧
      (a.maxY = b.maxY → a.minX = b.minX → a.signature ≤ b.signature →
        pickBetter (some a) (some b) = some a)) ∧
    findBestMatchForGraph (parseSmilesGraph "CC") ccBoard 4 4 =
      some ⟨[⟨2, 3⟩, ⟨3, 3⟩], 3, 2, "3:2|3:3"⟩ := by
  refine ⟨fun b => rfl, fun a => rfl, fun a b => ?_, by decide⟩
  refine ⟨fun h => ?_, fun h => ?_, fun h h' => ?_, fun h h' => ?_,
    fun h h' h'' => ?_, fun h h' h'' => ?_⟩
  · simp [pickBetter, h]
  · simp [pickBetter, h, not_lt_of_gt h]
  · simp [pickBetter, h, h', lt_irrefl]
  · simp [pickBetter, h, h', lt_irrefl, not_lt_of_gt h']
  · simp [pickBetter, h, h', h'', lt_irrefl]
  · simp [pickBetter, h, h', lt_irrefl, not_lt_of_ge h'']

/-- Witness for C2: the larger-`maxY` clause applied at two concrete
candidates. -/
theorem best_match_total_order_witness :
    pickBetter (some ⟨[], 5, 0, "a"⟩) (some ⟨[], 3, 1, "b"⟩) = some ⟨[], 5, 0, "a"⟩ :=
  (best_match_total_order.2.2.1 ⟨[], 5, 0, "a"⟩ ⟨[], 3, 1, "b"⟩).2.1 (by norm_num)

/-! ## Claim C3: the gravity invariant -/

theorem length_setCell (b : List (List Cell)) (x y : Int) (v : Cell) :
    (setCell b x y v).length = b.length := by
  unfold setCell
  split
  · split <;> simp [List.length_set]
  · rfl

theorem length_clearCells (coords : List Coord) :
    ∀ b : List (List Cell), (clearCells b coords).length = b.length := by
  induction coords with
  | nil => intro b; rfl
  | cons c rest ih =>
    intro b
    show (clearCells (setCell b c.x c.y '.') rest).length = b.length
    rw [ih, length_setCell]

theorem length_packColumn (hgt : Nat) (s : List Cell) :
    (packColumn hgt s).length = hgt := by
  unfold packColumn
  split <;> rename_i hc
  · rw [List.length_drop]; omega
  · rw [List.length_append, List.length_replicate]; omega

theorem packColumn_no_floating (hgt : Nat) (s : List Cell) (hs : ∀ c ∈ s, c ≠ '.')
    {y1 y2 : Nat} (h12 : y1 < y2) (h2 : y2 < hgt)
    (h1 : ((packColumn hgt s)[y1]?).getD '.' ≠ '.') :
    ((packColumn hgt s)[y2]?).getD '.' ≠ '.' := by
  by_cases hc : hgt ≤ s.length
  · have hpack : packColumn hgt s = s.drop (s.length - hgt) := by
      unfold packColumn; rw [if_pos hc]
    rw [hpack]
    have hylen : y2 < (s.drop (s.length - hgt)).length := by
      rw [List.length_drop]; omega
    rw [List.getElem?_eq_getElem hylen]
    simp only [Option.getD_some]
    exact hs _ (List.mem_of_mem_drop (List.getElem_mem hylen))
  · have hpack : packColumn hgt s = List.replicate (hgt - s.length) '.' ++ s := by
      unfold packColumn; rw [if_neg hc]
    rw [hpack] at h1 ⊢
    have hky1 : ¬ y1 < hgt - s.length := by
      intro hlt
      rw [List.getElem?_append, List.length_replicate, if_pos hlt,
        List.getElem?_replicate, if_pos hlt] at h1
      simp at h1
    have h2len : (List.replicate (hgt - s.length) '.').length ≤ y2 := by
      rw [List.length_replicate]; omega
    rw [List.getElem?_append_right h2len, List.length_replicate]
    have hidx : y2 - (hgt - s.length) < s.length := by omega
    rw [List.getElem?_eq_getElem hidx]
    simp only [Option.getD_some]
    exact hs _ (List.getElem_mem hidx)

theorem cellN_applyGravity (w hgt : Nat) (b : List (List Cell)) {x y : Nat}
    (hx : x < w) (hy : y < hgt) :
    cellN (applyGravity w hgt b) y x
      = ((packColumn hgt (columnStack b x))[y]?).getD '.' := by
  unfold cellN applyGravity
  rw [List.getElem?_map, List.getElem?_range hy, Option.map_some', Option.getD_some,
    List.getElem?_map, List.getElem?_range hx, Option.map_some', Option.getD_some]

theorem map_getD_eq_self {α : Type} (d : α) (l : List α) {n : Nat} (hl : l.length = n) :
    (List.range n).map (fun y => (l[y]?).getD d) = l := by
  apply List.ext_getElem?
  intro i
  by_cases hi : i < n
  · rw [List.getElem?_map, List.getElem?_range hi]
    simp only [Option.map_some']
    rw [List.getElem?_eq_getElem (by omega)]
    simp
  · rw [List.getElem?_eq_none (by simpa using not_lt.mp hi),
      List.getElem?_eq_none (by omega)]

theorem filterMap_col (rows : List (List Cell)) (x : Nat)
    (hrow : ∀ row ∈ rows, x < row.length) :
    rows.filterMap (fun row => row[x]?) = rows.map (fun row => (row[x]?).getD '.') := by
  induction rows with
  | nil => rfl
  | cons r rs ih =>
    simp only [List.filterMap_cons, List.map_cons]
    rw [List.getElem?_eq_getElem (hrow r (by simp))]
    simp only [Option.getD_some]
    rw [ih (fun row hm => hrow row (by simp [hm]))]

theorem columnStack_applyGravity (w hgt : Nat) (b : List (List Cell)) {x : Nat}
    (hx : x < w) (hstack : (columnStack b x).length ≤ hgt) :
    columnStack (applyGravity w hgt b) x = columnStack b x := by
  have hmem : ∀ c ∈ columnStack b x, c ≠ '.' := by
    intro c hc
    have := List.of_mem_filter hc
    simpa using this
  show ((applyGravity w hgt b).filterMap (fun row => row[x]?)).filter (fun c => c ≠ '.')
      = columnStack b x
  have h1 : (applyGravity w hgt b).filterMap (fun row => row[x]?)
      = (List.range hgt).map (fun y => ((packColumn hgt (columnStack b x))[y]?).getD '.') := by
    rw [filterMap_col _ x ?hr]
    case hr =>
      intro row hm
      unfold applyGravity at hm
      obtain ⟨y, _, rfl⟩ := List.mem_map.mp hm
      simpa using hx
    unfold applyGravity
    rw [List.map_map]
    simp only [Function.comp_def, List.getElem?_map, List.getElem?_range hx,
      Option.map_some', Option.getD_some]
  rw [h1, map_getD_eq_self '.' _ (length_packColumn hgt (columnStack b x))]
  by_cases hc : hgt ≤ (columnStack b x).length
  · have hlen : (columnStack b x).length = hgt := le_antisymm hstack hc
    unfold packColumn
    rw [if_pos hc, hlen, Nat.sub_self, List.drop_zero]
    rw [List.filter_eq_self]
    intro a ha
    simpa using hmem a ha
  · unfold packColumn
    rw [if_neg hc, List.filter_append]
    have hrep : (List.replicate (hgt - (columnStack b x).length) '.').filter
        (fun c => decide (c ≠ '.')) = [] := by
      rw [List.filter_eq_nil_iff]
      intro a ha
      rw [List.eq_of_mem_replicate ha]
      simp
    rw [hrep, List.nil_append, List.filter_eq_self]
    intro a ha
    simpa using hmem a ha

/-- C3.  Gravity invariant: after `clearMatch`, (i) in every column no
empty cell sits below a non-empty cell, and (ii) the top-to-bottom
sequence of non-empty cells of every column is exactly that of the cleared
board — cells move only within their own column, in stable order. -/
theorem clearMatch_gravity_invariant (e : GameEngine) (m : MatchCandidate)
    (hlen : e.board.length = e.height) :
    (∀ x, x < e.width → ∀ y1 y2, y1 < y2 → y2 < e.height →
      cellN (e.clearMatch m).board y1 x ≠ '.' → cellN (e.clearMatch m).board y2 x ≠ '.') ∧
    (∀ x, x < e.width →
      columnStack (e.clearMatch m).board x = columnStack (clearCells e.board m.coords) x) := by
  simp only [GameEngine.clearMatch]
  constructor
  · intro x hx y1 y2 h12 h2 h1
    rw [cellN_applyGravity e.width e.height _ hx (show y1 < e.height by omega)] at h1
    rw [cellN_applyGravity e.width e.height _ hx h2]
    refine packColumn_no_floating e.height _ ?_ h12 h2 h1
    intro c hc
    simpa using List.of_mem_filter hc
  · intro x hx
    refine columnStack_applyGravity e.width e.height _ hx ?_
    calc (columnStack (clearCells e.board m.coords) x).length
        ≤ ((clearCells e.board m.coords).filterMap (fun row => row[x]?)).length :=
          List.length_filter_le _ _
      _ ≤ (clearCells e.board m.coords).length := List.length_filterMap_le _ _
      _ = e.height := by rw [length_clearCells, hlen]

/-- Witness for C3: the invariant instantiated on a concrete 2×2 engine
and a one-cell match. -/
theorem clearMatch_gravity_invariant_witness :
    witnessEngine.board.length = witnessEngine.height ∧
    ((∀ x, x < witnessEngine.width → ∀ y1 y2, y1 < y2 → y2 < witnessEngine.height →
      cellN (witnessEngine.clearMatch ⟨[⟨1, 1⟩], 1, 1, "1:1"⟩).board y1 x ≠ '.' →
      cellN (witnessEngine.clearMatch ⟨[⟨1, 1⟩], 1, 1, "1:1"⟩).board y2 x ≠ '.') ∧
    (∀ x, x < witnessEngine.width →
      columnStack (witnessEngine.clearMatch ⟨[⟨1, 1⟩], 1, 1, "1:1"⟩).board x
        = columnStack (clearCells witnessEngine.board [⟨1, 1⟩]) x)) :=
  ⟨rfl, clearMatch_gravity_invariant witnessEngine ⟨[⟨1, 1⟩], 1, 1, "1:1"⟩ rfl⟩

/-! ## Claim C10: `tick` is inert when the engine is not running -/

theorem tickIter_targetChanged (r : ℚ) :
    ∀ (i : Nat) (e : GameEngine), (tickIter r i e).2.targetChanged = false := by
  intro i
  induction i with
  | zero => intro e; rfl
  | succ n ih =>
    intro e
    show (tickIter r (n + 1) e).2.targetChanged = false
    unfold tickIter
    cases e.active with
    | none => exact ih e
    | some a =>
      dsimp only
      split
      · exact ih _
      · split
        · rfl
        · split <;> rfl

/-- C10.  When `running` is false, `tick()` returns a no-match,
no-game-over, no-target-change result and leaves the whole engine state
unchanged; moreover the `targetChanged` field of `tick`'s result is false
on every execution path. -/
theorem tick_inert_when_not_running :
    (∀ (e : GameEngine) (r : ℚ), e.running = false →
      e.tick r = (e, ⟨none, false, false⟩)) ∧
    (∀ (e : GameEngine) (r : ℚ), (e.tick r).2.targetChanged = false) := by
  constructor
  · intro e r h
    simp [GameEngine.tick, h]
  · intro e r
    unfold GameEngine.tick
    split
    · rfl
    · exact tickIter_targetChanged r _ e

/-- Witness for C10: a concrete freshly constructed (hence not running)
engine. -/
theorem tick_inert_when_not_running_witness :
    idleEngine.running = false ∧ idleEngine.tick 0 = (idleEngine, ⟨none, false, false⟩) :=
  ⟨rfl, tick_inert_when_not_running.1 idleEngine 0 rfl⟩

/-! ## Claim C4: garbage overflow (corrected) -/

/-- Counterexample to C4 as stated: with `k = 7`, the check is capped at
`min k 6 = 6` rows, so a board whose only occupied cell lies in row 6 —
within the top 7 rows — is *not* refused: the call returns success and
mutates the board. -/
theorem addGarbageRows_overflow_counterexample :
    ((List.range 7).any
      (fun y => ((garbageEngine.board[y]?).getD []).any (fun c => c ≠ '.')) = true) ∧
    (garbageEngine.addGarbageRows 7 (fun _ => 0)).2 = true ∧
    (garbageEngine.addGarbageRows 7 (fun _ => 0)).1.board ≠ garbageEngine.board := by
  refine ⟨by decide, by decide, by decide⟩

/-- C4 (amended).  If any of the top `min(k, 6)` rows — the rows the code
actually checks, `count` being capped at 6 — contains a non-empty cell,
then `addGarbageRows(k)` returns failure and leaves the engine (board,
active piece and all other fields) unchanged. -/
theorem addGarbageRows_refuses (e : GameEngine) (k : Nat) (gaps : Nat → Nat)
    (hblock : (List.range (min k 6)).any
      (fun y => ((e.board[y]?).getD []).any (fun c => c ≠ '.')) = true) :
    e.addGarbageRows k gaps = (e, false) := by
  unfold GameEngine.addGarbageRows
  dsimp only
  rw [if_pos hblock]

/-- Witness for C4 (amended): a 2×2 engine with an occupied top row
refuses one garbage row and is left unchanged. -/
theorem addGarbageRows_refuses_witness :
    ((List.range (min 1 6)).any
      (fun y => ((witnessEngine.board[y]?).getD []).any (fun c => c ≠ '.')) = true) ∧
    witnessEngine.addGarbageRows 1 (fun _ => 0) = (witnessEngine, false) :=
  ⟨by decide, addGarbageRows_refuses witnessEngine 1 (fun _ => 0) (by decide)⟩

/-! ## Claim C5: speed monotonicity (corrected) -/

theorem boostSpeed_speed (e : GameEngine) (n : Int) (h80 : 80 ≤ e.currentTickMs) :
    80 ≤ (e.boostSpeed n).1.currentTickMs ∧
    (e.boostSpeed n).1.currentTickMs ≤ e.currentTickMs ∧
    (e.boostSpeed n).1.tickMs = e.tickMs := by
  unfold GameEngine.boostSpeed
  dsimp only
  split
  · exact ⟨h80, le_refl _, rfl⟩
  · split
    · exact ⟨h80, le_refl _, rfl⟩
    · refine ⟨le_max_left _ _, ?_, rfl⟩
      refine max_le h80 ?_
      exact mul_le_of_le_one_right (le_trans (by norm_num) h80)
        (pow_le_one₀ (by norm_num) (by norm_num))

theorem lockPiece_speed (e : GameEngine) :
    e.lockPiece.1.currentTickMs = e.currentTickMs ∧ e.lockPiece.1.tickMs = e.tickMs := by
  unfold GameEngine.lockPiece
  cases e.active <;> exact ⟨rfl, rfl⟩

theorem spawn_speed (e : GameEngine) (r : ℚ) :
    (e.spawn r).1.currentTickMs = e.currentTickMs ∧ (e.spawn r).1.tickMs = e.tickMs := by
  unfold GameEngine.spawn
  dsimp only
  split <;> exact ⟨rfl, rfl⟩

theorem tickIter_speed (r : ℚ) :
    ∀ (i : Nat) (e : GameEngine), 80 ≤ e.currentTickMs →
      80 ≤ (tickIter r i e).1.currentTickMs ∧
      (tickIter r i e).1.currentTickMs ≤ e.currentTickMs ∧
      (tickIter r i e).1.tickMs = e.tickMs := by
  intro i
  induction i with
  | zero => intro e h80; exact ⟨h80, le_refl _, rfl⟩
  | succ n ih =>
    intro e h80
    show 80 ≤ (tickIter r (n + 1) e).1.currentTickMs ∧ _ ∧ _
    unfold tickIter
    cases e.active with
    | none => exact ih e h80
    | some a =>
      dsimp only
      split
      · exact ih _ h80
      · have hl := lockPiece_speed { e with active := some a }
        have hcur : ({ e with active := some a } : GameEngine).currentTickMs
            = e.currentTickMs := rfl
        have htk : ({ e with active := some a } : GameEngine).tickMs = e.tickMs := rfl
        rw [hcur, htk] at hl
        split
        · have h80l : 80 ≤ (GameEngine.lockPiece { e with active := some a }).1.currentTickMs := by
            rw [hl.1]; exact h80
          have hb := boostSpeed_speed
            { (GameEngine.lockPiece { e with active := some a }).1 with
              score := (GameEngine.lockPiece { e with active := some a }).1.score + 1 } 1 h80l
          dsimp only at hb ⊢
          exact ⟨hb.1, le_trans hb.2.1 (le_of_eq hl.1), hb.2.2.trans hl.2⟩
        · have hs := spawn_speed (GameEngine.lockPiece { e with active := some a }).1 r
          split
          · exact ⟨by rw [hs.1, hl.1]; exact h80, by rw [hs.1, hl.1], by rw [hs.2, hl.2]⟩
          · dsimp only
            exact ⟨by rw [hs.1, hl.1]; exact h80, by rw [hs.1, hl.1], by rw [hs.2, hl.2]⟩

theorem applyOp_speed (e : GameEngine) (o : EngOp) (h : SpeedInv e) :
    SpeedInv (applyOp e o) ∧ (applyOp e o).currentTickMs ≤ e.currentTickMs ∧
      (applyOp e o).tickMs = e.tickMs := by
  obtain ⟨h80, hle⟩ := h
  have core : 80 ≤ (applyOp e o).currentTickMs ∧
      (applyOp e o).currentTickMs ≤ e.currentTickMs ∧
      (applyOp e o).tickMs = e.tickMs := by
    cases o with
    | spawn r =>
      show 80 ≤ (e.spawn r).1.currentTickMs ∧ (e.spawn r).1.currentTickMs ≤ e.currentTickMs ∧
        (e.spawn r).1.tickMs = e.tickMs
      exact ⟨by rw [(spawn_speed e r).1]; exact h80,
        by rw [(spawn_speed e r).1], (spawn_speed e r).2⟩
    | tick r =>
      show 80 ≤ (e.tick r).1.currentTickMs ∧ (e.tick r).1.currentTickMs ≤ e.currentTickMs ∧
        (e.tick r).1.tickMs = e.tickMs
      unfold GameEngine.tick
      by_cases hr : e.running
      · rw [if_neg (by simp [hr])]
        exact tickIter_speed r _ e h80
      · rw [if_pos (by simp [hr])]
        exact ⟨h80, le_refl _, rfl⟩
    | hardDrop =>
      show 80 ≤ e.hardDrop.1.currentTickMs ∧ e.hardDrop.1.currentTickMs ≤ e.currentTickMs ∧
        e.hardDrop.1.tickMs = e.tickMs
      unfold GameEngine.hardDrop
      cases e.active with
      | none => exact ⟨h80, le_refl _, rfl⟩
      | some a =>
        dsimp only
        have hl := lockPiece_speed { e with active := some { a with y := e.dropY a.x a.y } }
        exact ⟨by rw [hl.1]; exact h80, by rw [hl.1], hl.2⟩
    | moveHorizontal dx =>
      show 80 ≤ (e.moveHorizontal dx).1.currentTickMs ∧
        (e.moveHorizontal dx).1.currentTickMs ≤ e.currentTickMs ∧
        (e.moveHorizontal dx).1.tickMs = e.tickMs
      unfold GameEngine.moveHorizontal
      cases e.active with
      | none => exact ⟨h80, le_refl _, rfl⟩
      | some a =>
        dsimp only
        split
        · exact ⟨h80, le_refl _, rfl⟩
        · split <;> exact ⟨h80, le_refl _, rfl⟩
    | lockPiece =>
      show 80 ≤ e.lockPiece.1.currentTickMs ∧ e.lockPiece.1.currentTickMs ≤ e.currentTickMs ∧
        e.lockPiece.1.tickMs = e.tickMs
      have hl := lockPiece_speed e
      exact ⟨by rw [hl.1]; exact h80, by rw [hl.1], hl.2⟩
    | clearMatch m => exact ⟨h80, le_refl _, rfl⟩
    | boostSpeed n =>
      have hb := boostSpeed_speed e n h80
      exact ⟨hb.1, hb.2.1, hb.2.2⟩
    | addGarbageRows k gaps =>
      show 80 ≤ (e.addGarbageRows k gaps).1.currentTickMs ∧
        (e.addGarbageRows k gaps).1.currentTickMs ≤ e.currentTickMs ∧
        (e.addGarbageRows k gaps).1.tickMs = e.tickMs
      unfold GameEngine.addGarbageRows
      dsimp only
      split
      · exact ⟨h80, le_refl _, rfl⟩
      · exact ⟨h80, le_refl _, rfl⟩
    | pickNewTarget ds roll =>
      show 80 ≤ (e.pickNewTarget ds roll).1.currentTickMs ∧
        (e.pickNewTarget ds roll).1.currentTickMs ≤ e.currentTickMs ∧
        (e.pickNewTarget ds roll).1.tickMs = e.tickMs
      unfold GameEngine.pickNewTarget
      dsimp only
      split
      · exact ⟨h80, le_refl _, rfl⟩
      · have hb := boostSpeed_speed
          { e with
            target := selectTarget e.score (some e.target.name) e.customMolecules ds roll
            score := e.score + 1 } 1 h80
        exact ⟨hb.1, hb.2.1, hb.2.2⟩
  exact ⟨⟨core.1, core.2.2 ▸ le_trans core.2.1 hle⟩, core.2.1, core.2.2⟩

theorem runOps_append (e : GameEngine) (ops more : List EngOp) :
    runOps e (ops ++ more) = runOps (runOps e ops) more := by
  simp [runOps, List.foldl_append]

theorem runOps_speed (ops : List EngOp) :
    ∀ e : GameEngine, SpeedInv e →
      SpeedInv (runOps e ops) ∧ (runOps e ops).currentTickMs ≤ e.currentTickMs ∧
        (runOps e ops).tickMs = e.tickMs := by
  induction ops with
  | nil => intro e h; exact ⟨h, le_refl _, rfl⟩
  | cons o rest ih =>
    intro e h
    have h1 := applyOp_speed e o h
    have h2 := ih (applyOp e o) h1.1
    exact ⟨h2.1, le_trans h2.2.1 h1.2.1, h2.2.2.trans h1.2.2⟩

/-- Counterexample to C5 as stated: with a configured base tick of 50ms —
below the 80ms floor — the very first `boostSpeed(1)` *raises*
`currentTickMs` from 50 to `max(80, 45) = 80`, so the tick duration
increases and exceeds the configured base tick. -/
theorem speed_monotonicity_counterexample :
    slowEngine.tickMs = 50 ∧ slowEngine.currentTickMs = 50 ∧
    (runOps slowEngine [.boostSpeed 1]).currentTickMs = 80 ∧
    slowEngine.currentTickMs < (runOps slowEngine [.boostSpeed 1]).currentTickMs ∧
    slowEngine.tickMs < (runOps slowEngine [.boostSpeed 1]).currentTickMs := by
  have h : (runOps slowEngine [.boostSpeed 1]).currentTickMs = 80 := by
    show ((slowEngine.boostSpeed 1).1).currentTickMs = 80
    unfold GameEngine.boostSpeed
    norm_num [slowEngine, GameEngine.make]
  refine ⟨rfl, rfl, h, ?_, ?_⟩ <;> rw [h] <;> norm_num [slowEngine, GameEngine.make]

/-- C5 (amended).  For every configured base tick of at least the 80ms
floor, `currentTickMs` starts at the base tick and is non-increasing under
every sequence of in-game engine operations, never rising above the base
tick (`boostSpeed` scales it by `0.9` per clear, floored at 80ms). -/
theorem speed_monotonicity (w h : Nat) (t : ℚ) (cm : Option (List Molecule))
    (ds : Nat → Nat → Nat) (roll : ℚ) (ht : 80 ≤ t) (ops more : List EngOp) :
    (GameEngine.make w h t cm ds roll).currentTickMs = t ∧
    (runOps (GameEngine.make w h t cm ds roll) (ops ++ more)).currentTickMs
      ≤ (runOps (GameEngine.make w h t cm ds roll) ops).currentTickMs ∧
    (runOps (GameEngine.make w h t cm ds roll) ops).currentTickMs ≤ t := by
  have h0 : SpeedInv (GameEngine.make w h t cm ds roll) := ⟨ht, le_refl _⟩
  have h1 := runOps_speed ops _ h0
  have h2 := runOps_speed more _ h1.1
  have htick : (runOps (GameEngine.make w h t cm ds roll) ops).tickMs = t := h1.2.2
  refine ⟨rfl, ?_, le_trans h1.1.2 (le_of_eq htick)⟩
  rw [runOps_append]
  exact h2.2.1

/-- Witness for C5 (amended): base tick 500ms, a `boostSpeed` then a
`clearMatch`. -/
theorem speed_monotonicity_witness :
    (80 : ℚ) ≤ 500 ∧
    ((GameEngine.make 2 2 500 (some [⟨"water", "O"⟩]) (fun _ _ => 0) 0).currentTickMs = 500 ∧
    (runOps (GameEngine.make 2 2 500 (some [⟨"water", "O"⟩]) (fun _ _ => 0) 0)
        ([.boostSpeed 1] ++ [.clearMatch ⟨[], 0, 0, ""⟩])).currentTickMs
      ≤ (runOps (GameEngine.make 2 2 500 (some [⟨"water", "O"⟩]) (fun _ _ => 0) 0)
        [.boostSpeed 1]).currentTickMs ∧
    (runOps (GameEngine.make 2 2 500 (some [⟨"water", "O"⟩]) (fun _ _ => 0) 0)
        [.boostSpeed 1]).currentTickMs ≤ 500) :=
  ⟨by norm_num,
    speed_monotonicity 2 2 500 (some [⟨"water", "O"⟩]) (fun _ _ => 0) 0 (by norm_num)
      [.boostSpeed 1] [.clearMatch ⟨[], 0, 0, ""⟩]⟩

/-! ## Claim C8: target-selector totality and membership -/

theorem chooseLoop_mem (pool : List Molecule) (prev : Option String) (d : Nat → Nat) :
    ∀ (fuel attempts : Nat) (cand m : Molecule), cand ∈ pool →
      chooseLoop pool prev d fuel attempts cand = some m → m ∈ pool := by
  intro fuel
  induction fuel with
  | zero =>
    intro attempts cand m hc hm
    unfold chooseLoop at hm
    cases hm
    exact hc
  | succ n ih =>
    intro attempts cand m hc hm
    unfold chooseLoop at hm
    split at hm
    · cases hget : pool[d (attempts + 1)]? with
      | none => rw [hget] at hm; cases hm
      | some c =>
        rw [hget] at hm
        exact ih (attempts + 1) c m (List.getElem?_mem hget) hm
    · cases hm
      exact hc

theorem chooseRandom_mem (pool : List Molecule) (prev : Option String) (d : Nat → Nat)
    (m : Molecule) (hm : chooseRandom pool prev d = some m) : m ∈ pool := by
  unfold chooseRandom at hm
  split at hm
  · cases hm
  · split at hm
    · exact List.getElem?_mem hm
    · cases hget : pool[d 0]? with
      | none => rw [hget] at hm; cases hm
      | some c =>
        rw [hget] at hm
        exact chooseLoop_mem pool prev d _ 0 c m (List.getElem?_mem hget) hm

theorem getD_orElseM_cases (P : Molecule → Prop) (a b : Option Molecule) (f : Molecule)
    (ha : ∀ m, a = some m → P m) (hb : ∀ m, b = some m → P m) (hf : P f) :
    P ((orElseM a b).getD f) := by
  cases a with
  | some x => exact ha x rfl
  | none =>
    cases b with
    | some y => exact hb y rfl
    | none => exact hf

theorem orElseM_some (a b : Option Molecule) (m : Molecule) (h : orElseM a b = some m) :
    a = some m ∨ b = some m := by
  cases a with
  | some x => exact Or.inl h
  | none => exact Or.inr h

theorem getD_orElseM_of_right (P : Molecule → Prop) (a b : Option Molecule) (f : Molecule)
    (ha : ∀ m, a = some m → P m) (y : Molecule) (hb : b = some y) (hy : P y) :
    P ((orElseM a b).getD f) := by
  cases a with
  | some x => exact ha x rfl
  | none => show P (b.getD f); rw [hb]; exact hy

theorem selectTargetTiers_mem (cc : Nat) (prev : Option String) (ds : Nat → Nat → Nat)
    (roll : ℚ) : InBuiltinPools (selectTargetTiers cc prev ds roll) := by
  unfold selectTargetTiers
  split
  · refine getD_orElseM_cases InBuiltinPools _ _ _ ?_ ?_ (Or.inr (Or.inr (Or.inr rfl)))
    · intro m hm
      rcases orElseM_some _ _ _ hm with h | h
      · exact Or.inl (chooseRandom_mem _ _ _ _ h)
      · exact Or.inr (Or.inl (chooseRandom_mem _ _ _ _ h))
    · intro m hm
      exact Or.inr (Or.inr (Or.inl (chooseRandom_mem _ _ _ _ hm)))
  · split
    · dsimp only
      refine getD_orElseM_cases InBuiltinPools _ _ _ ?_ ?_ (Or.inr (Or.inr (Or.inr rfl)))
      · intro m hm
        rcases orElseM_some _ _ _ hm with h | h
        · split at h
          · exact Or.inr (Or.inl (chooseRandom_mem _ _ _ _ h))
          · exact Or.inl (chooseRandom_mem _ _ _ _ h)
        · split at h
          · exact Or.inl (chooseRandom_mem _ _ _ _ h)
          · exact Or.inr (Or.inl (chooseRandom_mem _ _ _ _ h))
      · intro m hm
        exact Or.inr (Or.inr (Or.inl (chooseRandom_mem _ _ _ _ hm)))
    · dsimp only
      refine getD_orElseM_cases InBuiltinPools _ _ _ ?_ ?_ (Or.inr (Or.inr (Or.inr rfl)))
      · intro m hm
        split at hm
        · exact Or.inr (Or.inr (Or.inl (chooseRandom_mem _ _ _ _ hm)))
        · split at hm
          · exact Or.inr (Or.inl (chooseRandom_mem _ _ _ _ hm))
          · exact Or.inl (chooseRandom_mem _ _ _ _ hm)
      · intro m hm
        rcases orElseM_some _ _ _ hm with h | h
        · rcases orElseM_some _ _ _ h with h2 | h2
          · exact Or.inr (Or.inr (Or.inl (chooseRandom_mem _ _ _ _ h2)))
          · exact Or.inr (Or.inl (chooseRandom_mem _ _ _ _ h2))
        · exact Or.inl (chooseRandom_mem _ _ _ _ h)

/-- C8.  `selectTarget` always returns a molecule (it is a total function
into `Molecule`); with a non-empty custom pool the result is a member of
that pool, and otherwise it is a member of one of the three built-in tier
pools or the hard-coded fallback, which is ethane `"CC"` — the shortest
tier-1 entry. -/
theorem target_selector_total (cc : Nat) (prev : Option String)
    (cm : Option (List Molecule)) (ds : Nat → Nat → Nat) (roll : ℚ) :
    (∀ pool, cm = some pool → pool ≠ [] → selectTarget cc prev cm ds roll ∈ pool) ∧
    (cm = none ∨ cm = some [] → InBuiltinPools (selectTarget cc prev cm ds roll)) ∧
    FALLBACK_MOLECULE = ⟨"ethane", "CC"⟩ := by
  refine ⟨?_, ?_, rfl⟩
  · rintro pool rfl hne
    unfold selectTarget
    dsimp only
    rw [if_pos (show pool.length > 0 from List.length_pos.mpr hne)]
    have h0 : pool[0]? = some (pool.head hne) := by
      rw [← List.head?_eq_getElem?, List.head?_eq_head hne]
    refine getD_orElseM_of_right (fun m => m ∈ pool) _ _ _ ?_ _ h0 (List.head_mem hne)
    intro m hm
    exact chooseRandom_mem _ _ _ _ hm
  · rintro (rfl | rfl)
    · exact selectTargetTiers_mem cc prev ds roll
    · unfold selectTarget
      dsimp only
      rw [if_neg (by simp)]
      exact selectTargetTiers_mem cc prev ds roll

/-- Witness for C8: a singleton custom pool; the selected target is its
member. -/
theorem target_selector_total_witness :
    ([(⟨"water", "O"⟩ : Molecule)] ≠ []) ∧
    selectTarget 0 none (some [⟨"water", "O"⟩]) (fun _ _ => 0) 0 ∈
      [(⟨"water", "O"⟩ : Molecule)] :=
  ⟨by decide,
    (target_selector_total 0 none (some [⟨"water", "O"⟩]) (fun _ _ => 0) 0).1 _ rfl (by decide)⟩

/-! ## Claim C1: matcher soundness — auxiliary lemmas -/

theorem manhattan_comm (a b : Coord) : manhattan a b = manhattan b a := by
  unfold manhattan
  omega

theorem dedupCoords_subset : ∀ (l : List Coord) (c : Coord), c ∈ dedupCoords l → c ∈ l := by
  intro l
  induction l with
  | nil => intro c hc; cases hc
  | cons d rest ih =>
    intro c hc
    unfold dedupCoords at hc
    rcases List.mem_cons.mp hc with h | h
    · exact h ▸ List.mem_cons_self d rest
    · exact List.mem_cons_of_mem d (ih c (List.mem_filter.mp h).1)

theorem localCands_good (g : SmilesGraph) (board : List (List Cell)) (w h : Nat)
    (i : Nat) (pos : Coord) (c : Coord)
    (hc : c ∈ localCands board w h (nodeElem g i) pos) : GoodCoord g board w h i c := by
  unfold localCands at hc
  obtain ⟨dir, _, hdir⟩ := List.mem_filterMap.mp hc
  dsimp only at hdir
  split at hdir
  · cases hdir
  · rename_i hbounds
    split at hdir
    · rename_i hcell
      cases hdir
      refine ⟨eq_of_beq hcell, ?_, ?_, ?_, ?_⟩ <;>
        · dsimp only
          simp only [Bool.or_eq_true, decide_eq_true_eq, not_or] at hbounds
          omega
    · cases hdir

theorem interCands_good (g : SmilesGraph) (board : List (List Cell)) (w h : Nat)
    (A : List (Nat × Coord)) (i : Nat) :
    ∀ (nbs : List Nat) (co : Option (List Coord)),
      (∀ c ∈ co.getD [], GoodCoord g board w h i c) →
      ∀ c ∈ interCands g board w h A i nbs co, GoodCoord g board w h i c := by
  intro nbs
  induction nbs with
  | nil =>
    intro co hco c hc
    unfold interCands at hc
    exact hco c (dedupCoords_subset _ c hc)
  | cons nb rest ih =>
    intro co hco c hc
    unfold interCands at hc
    cases hget : aGet A nb with
    | none =>
      rw [hget] at hc
      exact ih co hco c hc
    | some pos =>
      rw [hget] at hc
      dsimp only at hc
      split at hc
      · cases hc
      · cases co with
        | none =>
          refine ih _ ?_ c hc
          intro c' hc'
          exact localCands_good g board w h i pos c' (by simpa using hc')
        | some cs =>
          dsimp only at hc
          split at hc
          · cases hc
          · refine ih _ ?_ c hc
            intro c' hc'
            simp only [Option.getD_some] at hc' ⊢
            exact hco c' (List.mem_filter.mp hc').1

theorem getCandidatesForNode_good (g : SmilesGraph) (board : List (List Cell)) (w h : Nat)
    (A : List (Nat × Coord)) (i : Nat) (nbs : List Nat) (c : Coord)
    (hc : c ∈ getCandidatesForNode g board w h A i nbs) : GoodCoord g board w h i c :=
  interCands_good g board w h A i nbs none (by simp) c hc

theorem aGet_mem (A : List (Nat × Coord)) (k : Nat) (c : Coord)
    (h : aGet A k = some c) : (k, c) ∈ A := by
  unfold aGet at h
  cases hf : A.find? (fun p => p.1 == k) with
  | none => rw [hf] at h; cases h
  | some p =>
    rw [hf] at h
    have hp1 : p.1 = k := by simpa using List.find?_some hf
    have hp2 : p.2 = c := by simpa using h
    have := List.mem_of_find?_eq_some hf
    rw [← hp1, ← hp2]
    simpa using this

theorem mem_aGet (A : List (Nat × Coord)) (hnodup : (A.map Prod.fst).Nodup) (k : Nat)
    (c : Coord) (h : (k, c) ∈ A) : aGet A k = some c := by
  induction A with
  | nil => cases h
  | cons p rest ih =>
    have hnodup' : (p.1 :: rest.map Prod.fst).Nodup := by simpa using hnodup
    rcases List.mem_cons.mp h with rfl | hmem
    · unfold aGet
      rw [List.find?_cons_of_pos _ (by simp)]
      rfl
    · have hkrest : k ∈ rest.map Prod.fst := List.mem_map.mpr ⟨(k, c), hmem, rfl⟩
      have hne : ¬ ((fun q : Nat × Coord => q.1 == k) p) = true := by
        intro hbeq
        have heq : p.1 = k := by simpa using hbeq
        exact (List.nodup_cons.mp hnodup').1 (by rw [heq]; exact hkrest)
      unfold aGet
      rw [List.find?_cons_of_neg (p := fun q : Nat × Coord => q.1 == k) (a := p) rest hne]
      exact ih (List.nodup_cons.mp hnodup').2 hmem

theorem aGet_isSome_iff (A : List (Nat × Coord)) (k : Nat) :
    (aGet A k).isSome = true ↔ k ∈ A.map Prod.fst := by
  constructor
  · intro h
    cases hget : aGet A k with
    | none => rw [hget] at h; cases h
    | some c => exact List.mem_map.mpr ⟨(k, c), aGet_mem A k c hget, rfl⟩
  · intro h
    obtain ⟨p, hp, hp1⟩ := List.mem_map.mp h
    unfold aGet
    cases hf : A.find? (fun q => q.1 == k) with
    | some q => simp
    | none =>
      rw [List.find?_eq_none] at hf
      exact absurd (by simp [hp1] : ((fun q : Nat × Coord => q.1 == k) p) = true) (hf p hp)

theorem aSet_not_mem (A : List (Nat × Coord)) (k : Nat) (v : Coord)
    (h : k ∉ A.map Prod.fst) : aSet A k v = A ++ [(k, v)] := by
  unfold aSet
  rw [if_neg]
  intro hs
  rw [Option.isSome_iff_exists] at hs
  obtain ⟨p, hp⟩ := hs
  have h1 : p.1 = k := by simpa using List.find?_some hp
  exact h (List.mem_map.mpr ⟨p, List.mem_of_find?_eq_some hp, h1⟩)

theorem validCand_spec (A : List (Nat × Coord)) (nbs : List Nat) (cand : Coord)
    (h : validCand A nbs cand = true) :
    ∀ nb ∈ nbs, ∀ pos, aGet A nb = some pos → manhattan pos cand = 1 := by
  intro nb hnb pos hpos
  have := (List.all_eq_true.mp h) nb hnb
  rw [hpos] at this
  simpa [manhattan] using this

theorem selectNext_fold_mem (adjacency : List (List Nat)) (A : List (Nat × Coord)) :
    ∀ (u : List Nat) (acc : Option (Nat × Nat)) (pr : Nat × Nat),
      u.foldl (fun acc node =>
        let c := countAssigned adjacency A node
        if c == 0 then acc
        else
          match acc with
          | none => some (node, c)
          | some best => if c > best.2 then some (node, c) else acc) acc = some pr →
      acc = some pr ∨ pr.1 ∈ u := by
  intro u
  induction u with
  | nil => intro acc pr h; exact Or.inl h
  | cons a rest ih =>
    intro acc pr h
    rcases ih _ pr h with hstep | hmem
    · dsimp only at hstep
      split at hstep
      · exact Or.inl hstep
      · split at hstep
        · cases hstep; exact Or.inr (List.mem_cons_self _ _)
        · split at hstep
          · cases hstep; exact Or.inr (List.mem_cons_self _ _)
          · exact Or.inl hstep
    · exact Or.inr (List.mem_cons_of_mem a hmem)

theorem selectNext_mem (adjacency : List (List Nat)) (A : List (Nat × Coord))
    (u : List Nat) (n : Nat) (h : selectNext adjacency A u = some n) : n ∈ u := by
  unfold selectNext at h
  cases hf : u.foldl (fun acc node =>
      let c := countAssigned adjacency A node
      if c == 0 then acc
      else
        match acc with
        | none => some (node, c)
        | some best => if c > best.2 then some (node, c) else acc) none with
  | none => rw [hf] at h; cases h
  | some pr =>
    rw [hf] at h
    have hn : pr.1 = n := by simpa using h
    rcases selectNext_fold_mem adjacency A u none pr hf with hcontra | hmem
    · cases hcontra
    · exact hn ▸ hmem

theorem mem_listAddNat (l : List Nat) (n x : Nat) :
    x ∈ listAddNat l n ↔ x ∈ l ∨ x = n := by
  unfold listAddNat
  split <;> rename_i hc
  · constructor
    · exact Or.inl
    · rintro (h | rfl)
      · exact h
      · simpa using hc
  · simp

theorem nodup_listAddNat (l : List Nat) (n : Nat) (h : l.Nodup) :
    (listAddNat l n).Nodup := by
  unfold listAddNat
  split <;> rename_i hc
  · exact h
  · simp at hc
    simp [List.nodup_append, h, hc]

theorem pickBetter_or (a b : Option MatchCandidate) :
    pickBetter a b = a ∨ pickBetter a b = b := by
  unfold pickBetter
  cases a with
  | none => cases b <;> simp
  | some x =>
    cases b with
    | none => simp
    | some y =>
      dsimp only
      split
      · exact Or.inr rfl
      · split
        · exact Or.inl rfl
        · split
          · exact Or.inr rfl
          · split
            · exact Or.inl rfl
            · split
              · exact Or.inr rfl
              · exact Or.inl rfl

theorem symAdjB_spec (adj : List (List Nat)) (h : symAdjB adj = true) :
    ∀ i j, j ∈ adj.getD i [] → i ∈ adj.getD j [] := by
  intro i j hj
  by_cases hi : i < adj.length
  · have := (List.all_eq_true.mp h) i (List.mem_range.mpr hi)
    have hx := (List.all_eq_true.mp this) j hj
    simpa using hx
  · rw [List.getD_eq_getElem?_getD, List.getElem?_eq_none (by omega)] at hj
    cases hj

theorem noSelfAdjB_spec (adj : List (List Nat)) (h : noSelfAdjB adj = true) :
    ∀ i, i ∉ adj.getD i [] := by
  intro i hi
  by_cases hlen : i < adj.length
  · have hall := (List.all_eq_true.mp h) i (List.mem_range.mpr hlen)
    simp only [decide_eq_true_eq] at hall
    exact hall (by simpa using hi)
  · rw [List.getD_eq_getElem?_getD, List.getElem?_eq_none (by omega)] at hi
    cases hi

theorem rootIndexOf_lt (g : SmilesGraph) (total : Nat) (htotal : 0 < total) :
    rootIndexOf g total < total := by
  unfold rootIndexOf
  have haux : ∀ (l : List Nat) (acc : Nat),
      l.foldl (fun root i =>
        if (g.adjacency.getD i []).length > (g.adjacency.getD root []).length then i
        else root) acc = acc ∨
      l.foldl (fun root i =>
        if (g.adjacency.getD i []).length > (g.adjacency.getD root []).length then i
        else root) acc ∈ l := by
    intro l
    induction l with
    | nil => intro acc; exact Or.inl rfl
    | cons a rest ih =>
      intro acc
      rcases ih (if (g.adjacency.getD a []).length > (g.adjacency.getD acc []).length
          then a else acc) with h | h
      · rw [List.foldl_cons, h]
        split
        · exact Or.inr (List.mem_cons_self _ _)
        · exact Or.inl rfl
      · exact Or.inr (List.mem_cons_of_mem a h)
  rcases haux (List.range total) 0 with h | h
  · rw [h]; exact htotal
  · exact List.mem_range.mp h

theorem assignInv_extend (g : SmilesGraph) (board : List (List Cell)) (w h : Nat)
    (A : List (Nat × Coord)) (used : List Coord) (nextNode : Nat) (cand : Coord)
    (nbs : List Nat)
    (inv : AssignInv g board w h A used)
    (hn : nextNode < g.nodes.length)
    (hnk : nextNode ∉ A.map Prod.fst)
    (hgood : GoodCoord g board w h nextNode cand)
    (hused : ¬ used.contains cand = true)
    (hvalid : validCand A nbs cand = true)
    (hnbs : nbs = (g.adjacency.getD nextNode []).filter (fun n => (aGet A n).isSome))
    (hsym : ∀ i j, j ∈ g.adjacency.getD i [] → i ∈ g.adjacency.getD j []) :
    AssignInv g board w h (A ++ [(nextNode, cand)]) (used ++ [cand]) := by
  have hcand_notmem : cand ∉ used := by simpa using hused
  have hmem_nbs : ∀ m ∈ g.adjacency.getD nextNode [], m ∈ A.map Prod.fst → m ∈ nbs := by
    intro m hm hmk
    rw [hnbs]
    exact List.mem_filter.mpr ⟨hm, (aGet_isSome_iff A m).mpr hmk⟩
  constructor
  · rw [List.map_append]
    simp [List.nodup_append, inv.keysNodup, hnk]
  · intro p hp
    rcases List.mem_append.mp hp with hp | hp
    · exact inv.keysLt p hp
    · simp only [List.mem_singleton] at hp
      rw [hp]
      exact hn
  · intro p hp
    rcases List.mem_append.mp hp with hp | hp
    · exact inv.good p hp
    · simp only [List.mem_singleton] at hp
      rw [hp]
      exact hgood
  · intro p hp q hq hne
    rcases List.mem_append.mp hp with hp | hp <;> rcases List.mem_append.mp hq with hq | hq
    · exact inv.distinct p hp q hq hne
    · simp only [List.mem_singleton] at hq
      rw [hq]
      dsimp only
      intro heq
      exact hcand_notmem (heq ▸ inv.usedMem p hp)
    · simp only [List.mem_singleton] at hp
      rw [hp]
      dsimp only
      intro heq
      exact hcand_notmem (heq.symm ▸ inv.usedMem q hq)
    · simp only [List.mem_singleton] at hp hq
      exact absurd (by rw [hp, hq]) hne
  · intro p hp q hq hne hadj
    rcases List.mem_append.mp hp with hp | hp <;> rcases List.mem_append.mp hq with hq | hq
    · exact inv.edges p hp q hq hne hadj
    · simp only [List.mem_singleton] at hq
      subst hq
      have hget : aGet A p.1 = some p.2 :=
        mem_aGet A inv.keysNodup p.1 p.2 (by simpa using hp)
      have hpk : p.1 ∈ A.map Prod.fst := List.mem_map.mpr ⟨p, hp, rfl⟩
      have hp_in_nbs : p.1 ∈ nbs := hmem_nbs p.1 (hsym p.1 nextNode hadj) hpk
      exact validCand_spec A nbs cand hvalid p.1 hp_in_nbs p.2 hget
    · simp only [List.mem_singleton] at hp
      subst hp
      have hget : aGet A q.1 = some q.2 :=
        mem_aGet A inv.keysNodup q.1 q.2 (by simpa using hq)
      have hqk : q.1 ∈ A.map Prod.fst := List.mem_map.mpr ⟨q, hq, rfl⟩
      have hq_in_nbs : q.1 ∈ nbs := hmem_nbs q.1 hadj hqk
      rw [manhattan_comm]
      exact validCand_spec A nbs cand hvalid q.1 hq_in_nbs q.2 hget
    · simp only [List.mem_singleton] at hp hq
      exact absurd (by rw [hp, hq]) hne
  · intro p hp
    rcases List.mem_append.mp hp with hp | hp
    · exact List.mem_append_left _ (inv.usedMem p hp)
    · simp only [List.mem_singleton] at hp
      rw [hp]
      simp

theorem complete_sound (g : SmilesGraph) (board : List (List Cell)) (w h : Nat)
    (A : List (Nat × Coord)) (used : List Coord)
    (inv : AssignInv g board w h A used)
    (hirr : ∀ i, i ∉ g.adjacency.getD i [])
    (hlen : A.length = g.nodes.length) :
    SoundCandidate g board w h (createCandidate
      ((List.range g.nodes.length).map (fun idx => (aGet A idx).getD ⟨0, 0⟩))) := by
  have hkeys : ∀ i, i < g.nodes.length → ∃ c, aGet A i = some c := by
    intro i hi
    have hlenk : (A.map Prod.fst).length = g.nodes.length := by simp [hlen]
    have hsub : (A.map Prod.fst).toFinset ⊆ Finset.range g.nodes.length := by
      intro x hx
      simp only [List.mem_toFinset] at hx
      obtain ⟨p, hp, rfl⟩ := List.mem_map.mp hx
      exact Finset.mem_range.mpr (inv.keysLt p hp)
    have hcard : (A.map Prod.fst).toFinset.card = g.nodes.length := by
      rw [List.toFinset_card_of_nodup inv.keysNodup, hlenk]
    have heq : (A.map Prod.fst).toFinset = Finset.range g.nodes.length :=
      Finset.eq_of_subset_of_card_le hsub (by rw [hcard]; simp)
    have hi' : i ∈ (A.map Prod.fst).toFinset := by
      rw [heq]
      exact Finset.mem_range.mpr hi
    rw [List.mem_toFinset] at hi'
    obtain ⟨p, hp, hp1⟩ := List.mem_map.mp hi'
    exact ⟨p.2, mem_aGet A inv.keysNodup i p.2 (by rw [← hp1]; simpa using hp)⟩
  have hgetD : ∀ i, i < g.nodes.length →
      (i, ((List.range g.nodes.length).map
        (fun idx => (aGet A idx).getD ⟨0, 0⟩)).getD i ⟨0, 0⟩) ∈ A := by
    intro i hi
    obtain ⟨c, hc⟩ := hkeys i hi
    have hv : ((List.range g.nodes.length).map
        (fun idx => (aGet A idx).getD ⟨0, 0⟩)).getD i ⟨0, 0⟩ = c := by
      rw [List.getD_eq_getElem?_getD, List.getElem?_map, List.getElem?_range hi]
      simp [hc]
    rw [hv]
    exact aGet_mem A i c hc
  have hcc : (createCandidate ((List.range g.nodes.length).map
      (fun idx => (aGet A idx).getD ⟨0, 0⟩))).coords
      = (List.range g.nodes.length).map (fun idx => (aGet A idx).getD ⟨0, 0⟩) := rfl
  refine ⟨by rw [hcc]; simp, ?_, ?_, ?_⟩
  · intro i j hi hj hadj
    rw [hcc]
    by_cases hij : i = j
    · subst hij
      exact absurd hadj (hirr i)
    · have hpi := hgetD i hi
      have hpj := hgetD j hj
      exact inv.edges _ hpi _ hpj (by simpa using hij) (by simpa using hadj)
  · intro i hi
    rw [hcc]
    exact inv.good _ (hgetD i hi)
  · intro i j hi hj hne
    rw [hcc]
    exact inv.distinct _ (hgetD i hi) _ (hgetD j hj) (by simpa using hne)

theorem candFold_unassigned (g : SmilesGraph) (board : List (List Cell)) (w h : Nat)
    (fuel : Nat) (assignments : List (Nat × Coord)) (used : List Coord)
    (nextNode : Nat) (nbs : List Nat)
    (hrec : ∀ (A' : List (Nat × Coord)) (u' : List Coord) (acc' : SearchAcc),
      acc'.unassigned.Nodup →
      ((∀ x, x ∈ (searchRec g board w h fuel A' u' acc').unassigned ↔ x ∈ acc'.unassigned) ∧
       (searchRec g board w h fuel A' u' acc').unassigned.Nodup)) :
    ∀ (cands : List Coord) (acc : SearchAcc), acc.unassigned.Nodup →
      nextNode ∈ acc.unassigned →
      ((∀ x, x ∈ (cands.foldl (candStep g board w h fuel assignments used nextNode nbs)
          acc).unassigned ↔ x ∈ acc.unassigned) ∧
       (cands.foldl (candStep g board w h fuel assignments used nextNode nbs)
          acc).unassigned.Nodup) := by
  intro cands
  induction cands with
  | nil => intro acc hnd _; exact ⟨fun x => Iff.rfl, hnd⟩
  | cons cand rest ih =>
    intro acc hnd hmem
    rw [List.foldl_cons]
    have hstep : ∀ s : SearchAcc, candStep g board w h fuel assignments used nextNode nbs
          acc cand = s → s.unassigned.Nodup ∧ nextNode ∈ s.unassigned ∧
          (∀ x, x ∈ s.unassigned ↔ x ∈ acc.unassigned) := by
      intro s hs
      unfold candStep at hs
      split at hs
      · exact hs ▸ ⟨hnd, hmem, fun x => Iff.rfl⟩
      · split at hs
        · dsimp only at hs
          have hnd1 : (acc.unassigned.erase nextNode).Nodup := hnd.erase nextNode
          obtain ⟨h2iff, h2nd⟩ := hrec (aSet assignments nextNode cand) (used ++ [cand])
            { acc with unassigned := acc.unassigned.erase nextNode } hnd1
          subst hs
          refine ⟨nodup_listAddNat _ _ h2nd, ?_, ?_⟩
          · rw [mem_listAddNat]
            exact Or.inr rfl
          · intro x
            rw [mem_listAddNat]
            constructor
            · rintro (hx | rfl)
              · have := (h2iff x).mp hx
                exact ((hnd.mem_erase_iff).mp this).2
              · exact hmem
            · intro hx
              by_cases hxn : x = nextNode
              · exact Or.inr hxn
              · exact Or.inl ((h2iff x).mpr ((hnd.mem_erase_iff).mpr ⟨hxn, hx⟩))
        · exact hs ▸ ⟨hnd, hmem, fun x => Iff.rfl⟩
    obtain ⟨h1, h2, h3⟩ := hstep _ rfl
    obtain ⟨h4, h5⟩ := ih _ h1 h2
    exact ⟨fun x => (h4 x).trans (h3 x), h5⟩

theorem searchRec_unassigned (g : SmilesGraph) (board : List (List Cell)) (w h : Nat) :
    ∀ (fuel : Nat) (A : List (Nat × Coord)) (used : List Coord) (acc : SearchAcc),
      acc.unassigned.Nodup →
      ((∀ x, x ∈ (searchRec g board w h fuel A used acc).unassigned ↔ x ∈ acc.unassigned) ∧
       (searchRec g board w h fuel A used acc).unassigned.Nodup) := by
  intro fuel
  induction fuel with
  | zero => intro A used acc hnd; exact ⟨fun x => Iff.rfl, hnd⟩
  | succ n ih =>
    intro A used acc hnd
    show ((∀ x, x ∈ (searchRec g board w h (n + 1) A used acc).unassigned ↔
      x ∈ acc.unassigned) ∧ (searchRec g board w h (n + 1) A used acc).unassigned.Nodup)
    unfold searchRec
    split
    · dsimp only
      split
      · exact ⟨fun x => Iff.rfl, hnd⟩
      · exact ⟨fun x => Iff.rfl, hnd⟩
    · cases hsel : selectNext g.adjacency A acc.unassigned with
      | none => exact ⟨fun x => Iff.rfl, hnd⟩
      | some nextNode =>
        dsimp only
        exact candFold_unassigned g board w h n A used nextNode _ (fun A' u' acc' hnd' =>
          ih A' u' acc' hnd') _ acc hnd (selectNext_mem g.adjacency A acc.unassigned
            nextNode hsel)

theorem candFold_sound (g : SmilesGraph) (board : List (List Cell)) (w h : Nat)
    (fuel : Nat) (A : List (Nat × Coord)) (used : List Coord)
    (nextNode : Nat) (nbs : List Nat)
    (hsym : ∀ i j, j ∈ g.adjacency.getD i [] → i ∈ g.adjacency.getD j [])
    (hrecS : ∀ (A' : List (Nat × Coord)) (u' : List Coord) (acc' : SearchAcc),
      AssignInv g board w h A' u' → UnassignedInv g A' acc'.unassigned →
      GoodBest g board w h acc'.best →
      GoodBest g board w h (searchRec g board w h fuel A' u' acc').best)
    (inv : AssignInv g board w h A used)
    (hn : nextNode < g.nodes.length)
    (hnk : nextNode ∉ A.map Prod.fst)
    (hnbs : nbs = (g.adjacency.getD nextNode []).filter (fun n => (aGet A n).isSome)) :
    ∀ (cands : List Coord) (acc : SearchAcc),
      UnassignedInv g A acc.unassigned →
      (∀ c ∈ cands, GoodCoord g board w h nextNode c) →
      GoodBest g board w h acc.best →
      GoodBest g board w h
        ((cands.foldl (candStep g board w h fuel A used nextNode nbs) acc)).best := by
  intro cands
  induction cands with
  | nil => intro acc _ _ hbest; exact hbest
  | cons cand rest ih =>
    intro acc hU hcands hbest
    rw [List.foldl_cons]
    have hstep : ∀ s : SearchAcc,
        candStep g board w h fuel A used nextNode nbs acc cand = s →
        GoodBest g board w h s.best ∧ UnassignedInv g A s.unassigned := by
      intro s hs
      unfold candStep at hs
      split at hs
      · exact hs ▸ ⟨hbest, hU⟩
      · split at hs
        · rename_i hused hvalid
          dsimp only at hs
          obtain ⟨hndU, hmemU⟩ := hU
          have hinv1 : UnassignedInv g (aSet A nextNode cand)
              (acc.unassigned.erase nextNode) := by
            refine ⟨hndU.erase nextNode, ?_⟩
            intro n hn'
            obtain ⟨hne, hmem⟩ := (hndU.mem_erase_iff).mp hn'
            obtain ⟨hlt, hnkeys⟩ := hmemU n hmem
            rw [aSet_not_mem A nextNode cand hnk, List.map_append]
            exact ⟨hlt, by simp [hnkeys, hne]⟩
          have hinvA : AssignInv g board w h (aSet A nextNode cand) (used ++ [cand]) := by
            rw [aSet_not_mem A nextNode cand hnk]
            exact assignInv_extend g board w h A used nextNode cand nbs inv hn hnk
              (hcands cand (List.mem_cons_self _ _)) hused hvalid hnbs hsym
          have hb2 := hrecS (aSet A nextNode cand) (used ++ [cand])
            { acc with unassigned := acc.unassigned.erase nextNode } hinvA hinv1 hbest
          obtain ⟨h2iff, h2nd⟩ := searchRec_unassigned g board w h fuel
            (aSet A nextNode cand) (used ++ [cand])
            { acc with unassigned := acc.unassigned.erase nextNode } (hndU.erase nextNode)
          subst hs
          refine ⟨hb2, nodup_listAddNat _ _ h2nd, ?_⟩
          intro n hn'
          rw [mem_listAddNat] at hn'
          rcases hn' with hn' | rfl
          · have := (h2iff n).mp hn'
            obtain ⟨hne, hmem⟩ := (hndU.mem_erase_iff).mp this
            exact hmemU n hmem
          · exact ⟨hn, hnk⟩
        · exact hs ▸ ⟨hbest, hU⟩
    obtain ⟨h1, h2⟩ := hstep _ rfl
    exact ih _ h2 (fun c hc => hcands c (List.mem_cons_of_mem _ hc)) h1

theorem searchRec_sound (g : SmilesGraph) (board : List (List Cell)) (w h : Nat)
    (hsym : ∀ i j, j ∈ g.adjacency.getD i [] → i ∈ g.adjacency.getD j [])
    (hirr : ∀ i, i ∉ g.adjacency.getD i []) :
    ∀ (fuel : Nat) (A : List (Nat × Coord)) (used : List Coord) (acc : SearchAcc),
      AssignInv g board w h A used → UnassignedInv g A acc.unassigned →
      GoodBest g board w h acc.best →
      GoodBest g board w h (searchRec g board w h fuel A used acc).best := by
  intro fuel
  induction fuel with
  | zero => intro A used acc _ _ hbest; exact hbest
  | succ n ih =>
    intro A used acc hA hU hbest
    show GoodBest g board w h (searchRec g board w h (n + 1) A used acc).best
    unfold searchRec
    split
    · rename_i hbeq
      have hlen : A.length = g.nodes.length := by simpa using hbeq
      dsimp only
      split
      · exact hbest
      · intro c hc
        simp only at hc
        rcases pickBetter_or acc.best (some (createCandidate
            ((List.range g.nodes.length).map (fun idx => (aGet A idx).getD ⟨0, 0⟩))))
          with hp | hp
        · rw [hp] at hc
          exact hbest c hc
        · rw [hp] at hc
          injection hc with hc'
          rw [← hc']
          exact complete_sound g board w h A used hA hirr hlen
    · cases hsel : selectNext g.adjacency A acc.unassigned with
      | none => exact hbest
      | some nextNode =>
        dsimp only
        have hmem := selectNext_mem g.adjacency A acc.unassigned nextNode hsel
        obtain ⟨hn, hnk⟩ := hU.2 nextNode hmem
        exact candFold_sound g board w h n A used nextNode _ hsym
          (fun A' u' acc' => ih A' u' acc') hA hn hnk rfl _ acc hU
          (fun c hc => getCandidatesForNode_good g board w h A nextNode _ c hc) hbest

theorem rootFold_sound (g : SmilesGraph) (board : List (List Cell)) (w h : Nat)
    (root : Nat)
    (hsym : ∀ i j, j ∈ g.adjacency.getD i [] → i ∈ g.adjacency.getD j [])
    (hirr : ∀ i, i ∉ g.adjacency.getD i [])
    (hroot : root < g.nodes.length) :
    ∀ (cells : List (Int × Int)) (acc : SearchAcc),
      (∀ p ∈ cells, 0 ≤ p.1 ∧ p.1 < (w : Int) ∧ 0 ≤ p.2 ∧ p.2 < (h : Int)) →
      acc.unassigned.Nodup → (∀ n ∈ acc.unassigned, n < g.nodes.length) →
      GoodBest g board w h acc.best →
      GoodBest g board w h
        ((cells.foldl (rootStep g board w h g.nodes.length root) acc)).best := by
  intro cells
  induction cells with
  | nil => intro acc _ _ _ hbest; exact hbest
  | cons p rest ih =>
    intro acc hcells hnd hlt hbest
    rw [List.foldl_cons]
    have hstep : ∀ s : SearchAcc,
        rootStep g board w h g.nodes.length root acc p = s →
        GoodBest g board w h s.best ∧ s.unassigned.Nodup ∧
          (∀ n ∈ s.unassigned, n < g.nodes.length) := by
      intro s hs
      unfold rootStep at hs
      split at hs
      · rename_i hcell
        dsimp only at hs
        obtain ⟨hx0, hxw, hy0, hyh⟩ := hcells p (List.mem_cons_self _ _)
        have hA0 : AssignInv g board w h [(root, ⟨p.1, p.2⟩)] [⟨p.1, p.2⟩] := by
          constructor
          · simp
          · intro q hq
            simp only [List.mem_singleton] at hq
            rw [hq]
            exact hroot
          · intro q hq
            simp only [List.mem_singleton] at hq
            rw [hq]
            exact ⟨eq_of_beq hcell, hx0, hxw, hy0, hyh⟩
          · intro q hq q' hq' hne
            simp only [List.mem_singleton] at hq hq'
            exact absurd (by rw [hq, hq']) hne
          · intro q hq q' hq' hne _
            simp only [List.mem_singleton] at hq hq'
            exact absurd (by rw [hq, hq']) hne
          · intro q hq
            simp only [List.mem_singleton] at hq
            rw [hq]
            simp
        have hU0 : UnassignedInv g [(root, ⟨p.1, p.2⟩)] (acc.unassigned.erase root) := by
          refine ⟨hnd.erase root, ?_⟩
          intro n hn'
          obtain ⟨hne, hmem⟩ := (hnd.mem_erase_iff).mp hn'
          exact ⟨hlt n hmem, by simp [hne]⟩
        have hb2 := searchRec_sound g board w h hsym hirr g.nodes.length
          [(root, ⟨p.1, p.2⟩)] [⟨p.1, p.2⟩]
          { acc with unassigned := acc.unassigned.erase root } hA0 hU0 hbest
        obtain ⟨h2iff, h2nd⟩ := searchRec_unassigned g board w h g.nodes.length
          [(root, ⟨p.1, p.2⟩)] [⟨p.1, p.2⟩]
          { acc with unassigned := acc.unassigned.erase root } (hnd.erase root)
        subst hs
        refine ⟨hb2, nodup_listAddNat _ _ h2nd, ?_⟩
        intro n hn'
        rw [mem_listAddNat] at hn'
        rcases hn' with hn' | rfl
        · exact hlt n ((hnd.mem_erase_iff).mp ((h2iff n).mp hn')).2
        · exact hroot
      · exact hs ▸ ⟨hbest, hnd, hlt⟩
    obtain ⟨h1, h2, h3⟩ := hstep _ rfl
    exact ih _ (fun q hq => hcells q (List.mem_cons_of_mem _ hq)) h2 h3 h1

/-- C1.  Matcher soundness: whenever `findBestMatchForGraph` returns a
candidate on an undirected, self-loop-free pattern graph (as the parser
always produces), the candidate assigns one board coordinate per pattern
node; every pattern edge maps to a pair of coordinates at Manhattan
distance exactly 1; every assigned coordinate's board cell equals the
corresponding node's element and lies within the board bounds; and all
assigned coordinates are pairwise distinct. -/
theorem matcher_soundness (g : SmilesGraph) (board : List (List Cell)) (w h : Nat)
    (c : MatchCandidate)
    (hsym : symAdjB g.adjacency = true) (hirr : noSelfAdjB g.adjacency = true)
    (hfind : findBestMatchForGraph g board w h = some c) :
    SoundCandidate g board w h c := by
  have hsym' := symAdjB_spec g.adjacency hsym
  have hirr' := noSelfAdjB_spec g.adjacency hirr
  unfold findBestMatchForGraph at hfind
  split at hfind
  · cases hfind
  · rename_i hne
    have h0 : 0 < g.nodes.length := by
      rcases Nat.eq_zero_or_pos g.nodes.length with hz | hpos
      · exact absurd (by simp [hz]) hne
      · exact hpos
    dsimp only at hfind
    have hcells : ∀ p ∈ (List.range h).flatMap
        (fun (y : Nat) => (List.range w).map (fun (x : Nat) => ((x : Int), (y : Int)))),
        0 ≤ p.1 ∧ p.1 < (w : Int) ∧ 0 ≤ p.2 ∧ p.2 < (h : Int) := by
      intro p hp
      rw [List.mem_flatMap] at hp
      obtain ⟨y, hy, hp2⟩ := hp
      rw [List.mem_map] at hp2
      obtain ⟨x, hx, hpe⟩ := hp2
      rw [List.mem_range] at hy
      rw [List.mem_range] at hx
      subst hpe
      dsimp only
      refine ⟨Int.natCast_nonneg x, by exact_mod_cast hx,
        Int.natCast_nonneg y, by exact_mod_cast hy⟩
    exact rootFold_sound g board w h (rootIndexOf g g.nodes.length) hsym' hirr'
      (rootIndexOf_lt g g.nodes.length h0) _ ⟨List.range g.nodes.length, [], none⟩
      hcells (List.nodup_range _) (fun n hn => List.mem_range.mp hn)
      (fun c' hc' => by cases hc') c hfind

/-- Witness for C1: the `CC` pattern on the claim-C2 board; the returned
candidate is sound. -/
theorem matcher_soundness_witness :
    symAdjB (parseSmilesGraph "CC").adjacency = true ∧
    noSelfAdjB (parseSmilesGraph "CC").adjacency = true ∧
    SoundCandidate (parseSmilesGraph "CC") ccBoard 4 4 ⟨[⟨2, 3⟩, ⟨3, 3⟩], 3, 2, "3:2|3:3"⟩ :=
  ⟨by decide, by decide,
    matcher_soundness (parseSmilesGraph "CC") ccBoard 4 4 _ (by decide) (by decide) (by decide)⟩

end ChemTetris
